import Mathlib

/-!
# WorkersFriend — shallow embedding and verification

Shallow embedding of the WorkersFriend library (repository `akingdom/WebWorkerFriend`):
a correlation-based RPC layer over a real Web Worker or an in-page emulator.

The repository contains several iterations of the same module:
* `src/workersFriend.js` — v3.1.4 (namespace `WF3` below),
* `src/unnamed/part_001` — v6.8.2 (namespace `WF6` below),
* `src/src/workersFriend.worker.js` — worker script v6.7.0 (namespace `WorkerScript`),
* `src/unnamed/part_002` — v5.0.0 plus worker scripts (its `cloneAny` agrees with v3.1.4's
  on clonable data).

JavaScript values carried by envelopes are modelled by the inductive `Value`
(plain JSON-representable data; numbers are modelled as integers — the float
subtleties of non-integer numbers are outside all the claims below except that
`cloneAny`'s round-trip is proved on the integer-numbered fragment).
The host's `structuredClone` and `JSON.stringify`/`JSON.parse` primitives are
modelled with standard semantics on this fragment (`sClone`, `stringifyV`, `parseV`).
-/

/-- JS plain data value (JSON-representable fragment; numbers as integers). -/
inductive Value where
  | null : Value
  | bool (b : Bool) : Value
  | num (n : Int) : Value
  | str (s : String) : Value
  | arr (xs : List Value) : Value
  | obj (kvs : List (String × Value)) : Value

/-- Character used for a decimal digit (`'0'`-`'9'`; total, defaulting to `'0'`). -/
def digitChar : Nat → Char
  | 0 => '0' | 1 => '1' | 2 => '2' | 3 => '3' | 4 => '4'
  | 5 => '5' | 6 => '6' | 7 => '7' | 8 => '8' | 9 => '9'
  | _ => '0'

/-- Numeric value of a digit character. -/
def digitVal (c : Char) : Nat := c.toNat - 48

/-- Is `c` a decimal digit character? -/
def isDigitChar (c : Char) : Bool := 48 ≤ c.toNat && c.toNat ≤ 57

/-- Fuel-indexed most-significant-first decimal digit printer. -/
def natDigitsGo : Nat → Nat → List Char → List Char
  | 0, _, acc => acc
  | f + 1, n, acc =>
    if n < 10 then digitChar n :: acc
    else natDigitsGo f (n / 10) (digitChar (n % 10) :: acc)

/-- Decimal digits of `n`, most significant first (model of JS number→string). -/
def natDigits (n : Nat) : List Char := natDigitsGo (n + 1) n []

/-- Model of JavaScript `String(n)` for a nonnegative integer counter. -/
def jsString (n : Nat) : String := String.mk (natDigits n)

/-- Greedy decimal-number parser step: consume leading digits, accumulating. -/
def parseNatGo (acc : Nat) : List Char → Nat × List Char
  | [] => (acc, [])
  | c :: cs => if isDigitChar c then parseNatGo (acc * 10 + digitVal c) cs else (acc, c :: cs)

/-- Opening-brace character of JSON object syntax. -/
def lbraceC : Char := Char.ofNat 123

/-- Closing-brace character of JSON object syntax. -/
def rbraceC : Char := Char.ofNat 125

/-- Quote character of JSON string syntax. -/
def quoteC : Char := '"'

/-- Backslash (escape) character of JSON string syntax. -/
def backslashC : Char := '\\'

/-- JSON escaping of one string character (the printer escapes quote and backslash). -/
def escapeChar (c : Char) : List Char :=
  if c = quoteC ∨ c = backslashC then [backslashC, c] else [c]

/-- JSON escaping of a whole string body. -/
def escapeStr : List Char → List Char
  | [] => []
  | c :: cs => escapeChar c ++ escapeStr cs

/-- Decimal printing of an integer (model of JSON number output for integers). -/
def intChars : Int → List Char
  | Int.ofNat n => natDigits n
  | Int.negSucc n => '-' :: natDigits (n + 1)

mutual

/-- Model of `JSON.stringify` restricted to plain data (output as a character list). -/
def stringifyV : Value → List Char
  | Value.null => ['n', 'u', 'l', 'l']
  | Value.bool true => ['t', 'r', 'u', 'e']
  | Value.bool false => ['f', 'a', 'l', 's', 'e']
  | Value.num n => intChars n
  | Value.str s => quoteC :: (escapeStr s.data ++ [quoteC])
  | Value.arr [] => ['[', ']']
  | Value.arr (x :: xs) => '[' :: (stringifyElems x xs ++ [']'])
  | Value.obj [] => [lbraceC, rbraceC]
  | Value.obj (kv :: kvs) => lbraceC :: (stringifyMembers kv kvs ++ [rbraceC])
termination_by v => sizeOf v
decreasing_by all_goals simp_arith

/-- Comma-separated printing of a nonempty array element list. -/
def stringifyElems : Value → List Value → List Char
  | v, [] => stringifyV v
  | v, w :: ws => stringifyV v ++ ',' :: stringifyElems w ws
termination_by v vs => sizeOf (v :: vs)
decreasing_by all_goals simp_arith

/-- Comma-separated printing of a nonempty object member list. -/
def stringifyMembers : String × Value → List (String × Value) → List Char
  | (k, v), [] => (quoteC :: (escapeStr k.data ++ [quoteC])) ++ ':' :: stringifyV v
  | (k, v), m :: ms =>
      (quoteC :: (escapeStr k.data ++ [quoteC])) ++ ':' :: stringifyV v ++ ',' :: stringifyMembers m ms
termination_by kv kvs => sizeOf (kv :: kvs)
decreasing_by all_goals simp_arith

end

/-- Inverse of a printed escape sequence character. -/
def unescChar (c : Char) : Char :=
  if c = 'n' then '\n' else if c = 't' then '\t' else if c = 'r' then '\r' else c

/-- Parse a JSON string body up to (and consuming) the closing quote. -/
def parseStrGo : List Char → Option (List Char × List Char)
  | [] => none
  | c :: cs =>
    if c = quoteC then some ([], cs)
    else if c = backslashC then
      match cs with
      | [] => none
      | e :: cs' =>
        match parseStrGo cs' with
        | none => none
        | some (s, r) => some (unescChar e :: s, r)
    else
      match parseStrGo cs with
      | none => none
      | some (s, r) => some (c :: s, r)

/-- Consume an expected literal character sequence. -/
def dropLit : List Char → List Char → Option (List Char)
  | [], cs => some cs
  | p :: ps, c :: cs => if c = p then dropLit ps cs else none
  | _ :: _, [] => none

/-- Parse continuation after the keyword head `n`. -/
def nullCase (cs : List Char) : Option (Value × List Char) :=
  (dropLit ['u', 'l', 'l'] cs).map (fun r => (Value.null, r))

/-- Parse continuation after the keyword head `t`. -/
def trueCase (cs : List Char) : Option (Value × List Char) :=
  (dropLit ['r', 'u', 'e'] cs).map (fun r => (Value.bool true, r))

/-- Parse continuation after the keyword head `f`. -/
def falseCase (cs : List Char) : Option (Value × List Char) :=
  (dropLit ['a', 'l', 's', 'e'] cs).map (fun r => (Value.bool false, r))

/-- Parse continuation after an opening quote. -/
def strCase (cs : List Char) : Option (Value × List Char) :=
  (parseStrGo cs).map (fun p => (Value.str (String.mk p.1), p.2))

/-- Parse continuation after a minus sign: requires a digit, then a greedy number. -/
def negCase : List Char → Option (Value × List Char)
  | [] => none
  | d :: ds =>
    if isDigitChar d then
      some (Value.num (-((parseNatGo (digitVal d) ds).1 : Int)), (parseNatGo (digitVal d) ds).2)
    else none

/-- Parse continuation at a digit head: a greedy nonnegative number. -/
def numCase (c : Char) (cs : List Char) : Option (Value × List Char) :=
  some (Value.num ((parseNatGo (digitVal c) cs).1 : Int), (parseNatGo (digitVal c) cs).2)

/-- Parse continuation after an opening bracket: empty array or element list. -/
def arrCase (next : List Char → Option (List Value × List Char)) :
    List Char → Option (Value × List Char)
  | [] => none
  | d :: ds =>
    if d = ']' then some (Value.arr [], ds)
    else (next (d :: ds)).map (fun p => (Value.arr p.1, p.2))

/-- Parse continuation after an opening brace: empty object or member list. -/
def objCase (next : List Char → Option (List (String × Value) × List Char)) :
    List Char → Option (Value × List Char)
  | [] => none
  | d :: ds =>
    if d = rbraceC then some (Value.obj [], ds)
    else (next (d :: ds)).map (fun p => (Value.obj p.1, p.2))

/-- After one array element: a comma continues the element list, a bracket ends it. -/
def elemsCont (next : List Char → Option (List Value × List Char)) :
    Value × List Char → Option (List Value × List Char)
  | (_, []) => none
  | (v, c :: r) =>
    if c = ',' then (next r).map (fun p => (v :: p.1, p.2))
    else if c = ']' then some ([v], r)
    else none

/-- After one object member's value: a comma continues, a brace ends. -/
def membersCont (next : List Char → Option (List (String × Value) × List Char))
    (k : List Char) : Value × List Char → Option (List (String × Value) × List Char)
  | (_, []) => none
  | (v, c :: r) =>
    if c = ',' then (next r).map (fun p => ((String.mk k, v) :: p.1, p.2))
    else if c = rbraceC then some ([(String.mk k, v)], r)
    else none

/-- After an object member's key string: expect a colon, then the value. -/
def keyCont (parseVal : List Char → Option (Value × List Char))
    (next : List Char → Option (List (String × Value) × List Char)) :
    List Char × List Char → Option (List (String × Value) × List Char)
  | (_, []) => none
  | (k, c2 :: r2) =>
    if c2 = ':' then (parseVal r2).bind (membersCont next k) else none

mutual

/-- Fuel-indexed model of `JSON.parse` on the plain-data fragment
(returns the parsed value and the unconsumed remainder). -/
def parseV : Nat → List Char → Option (Value × List Char)
  | 0, _ => none
  | _ + 1, [] => none
  | f + 1, c :: cs =>
    if c = 'n' then nullCase cs
    else if c = 't' then trueCase cs
    else if c = 'f' then falseCase cs
    else if c = quoteC then strCase cs
    else if c = '-' then negCase cs
    else if isDigitChar c then numCase c cs
    else if c = '[' then arrCase (fun r => parseElems f r) cs
    else if c = lbraceC then objCase (fun r => parseMembers f r) cs
    else none

/-- Parse one or more comma-separated array elements, consuming the closing bracket. -/
def parseElems : Nat → List Char → Option (List Value × List Char)
  | 0, _ => none
  | f + 1, cs => (parseV f cs).bind (elemsCont (fun r => parseElems f r))

/-- Parse one or more comma-separated object members, consuming the closing brace. -/
def parseMembers : Nat → List Char → Option (List (String × Value) × List Char)
  | 0, _ => none
  | _ + 1, [] => none
  | f + 1, c :: cs =>
    if c = quoteC then (parseStrGo cs).bind (keyCont (fun r => parseV f r) (fun r => parseMembers f r))
    else none

end

/-- Model of `JSON.parse` applied to a whole string: must consume all input. -/
def jsonParse (cs : List Char) : Option Value :=
  match parseV (cs.length + 1) cs with
  | some (v, []) => some v
  | _ => none

/-- `JSON.parse(JSON.stringify(v))` — the fallback clone path of `cloneAny`. -/
def jsonClone (v : Value) : Option Value := jsonParse (stringifyV v)

mutual

/-- Model of the host `structuredClone` primitive on plain data: a deep
structural copy (the spec assumes this codec as a primitive: a deep,
acyclic-safe copy of plain data). -/
def sClone : Value → Value
  | Value.null => Value.null
  | Value.bool b => Value.bool b
  | Value.num n => Value.num n
  | Value.str s => Value.str s
  | Value.arr xs => Value.arr (sCloneL xs)
  | Value.obj kvs => Value.obj (sCloneM kvs)
termination_by v => sizeOf v
decreasing_by all_goals simp_arith

/-- Deep copy of an array's elements. -/
def sCloneL : List Value → List Value
  | [] => []
  | v :: vs => sClone v :: sCloneL vs
termination_by vs => sizeOf vs
decreasing_by all_goals simp_arith

/-- Deep copy of an object's members. -/
def sCloneM : List (String × Value) → List (String × Value)
  | [] => []
  | (k, v) :: kvs => (k, sClone v) :: sCloneM kvs
termination_by kvs => sizeOf kvs
decreasing_by all_goals simp_arith

end

/-- `cloneAny` from `src/workersFriend.js` lines 56-60 (v3.1.4; the v5.0.0 variant in
`src/unnamed/part_002` lines 7-16 behaves identically on clonable plain data):
uses `structuredClone` when the host provides it, else `JSON.parse(JSON.stringify(obj))`.
The flag says whether `typeof structuredClone === 'function'`.  The JSON path is
`Option`-valued because `JSON.parse` can fail in general. -/
def cloneAny (structuredCloneAvailable : Bool) (v : Value) : Option Value :=
  if structuredCloneAvailable then some (sClone v) else jsonClone v

/-! ## Envelope helpers (shared shape of inbound/outbound messages) -/

/-- JS property access `d[k]` restricted to data: `none` models `undefined`
(missing key, or access on a primitive; the `!d` guard in the listeners keeps
the `null` case from throwing, and on our data model it also yields `none`). -/
def getField : Value → String → Option Value
  | Value.obj kvs, k => lookupStr kvs k
  | _, _ => none
where
  /-- First-match lookup in an object's member list. -/
  lookupStr : List (String × Value) → String → Option Value
    | [], _ => none
    | (k', v) :: t, k => if k' = k then some v else lookupStr t k

/-- `typeof d.id === 'string'` access: the envelope id, when it is a string. -/
def envId (d : Value) : Option String :=
  match getField d "id" with
  | some (Value.str s) => some s
  | _ => none

/-- `typeof d.action === 'string'` access: the envelope action, when it is a string. -/
def envAction (d : Value) : Option String :=
  match getField d "action" with
  | some (Value.str s) => some s
  | _ => none

/-- A pending-map entry (`{resolve, reject, timeoutId}`); the two settlement
callbacks are represented by the effect trace, so the entry carries the timer. -/
structure Entry where
  timeoutId : Nat
deriving DecidableEq, Repr

/-- Observable reasons a future is rejected with. -/
inductive RejectReason where
  | timeout : RejectReason
  | terminated : RejectReason
  | workerError (e : Option Value) : RejectReason

/-- Externally observable actions performed by the controller-side code.
`resolveFuture`/`rejectFuture` are the settlement calls on a pending entry's
promise callbacks; the others are callback invocations and backend traffic. -/
inductive Effect where
  | resolveFuture (id : String) (payload : Option Value) : Effect
  | rejectFuture (id : String) (reason : RejectReason) : Effect
  | invokeProgress (message : Option Value) : Effect
  | invokeLive (payload : Option Value) : Effect
  | invokeDeferred (payload : Option Value) : Effect
  | postToBackend (env : Value) : Effect
  | backendShutdown : Effect

/-- Does this effect settle (resolve or reject) the future of call `id`? -/
def isSettleFor (id : String) : Effect → Bool
  | Effect.resolveFuture i _ => i == id
  | Effect.rejectFuture i _ => i == id
  | _ => false

/-- Number of settlement calls for `id` in an effect trace. -/
def settleCount (effs : List Effect) (id : String) : Nat :=
  (effs.filter (isSettleFor id)).length

/-- Key-respecting lookup in the pending map (JS `Map.get`). -/
def lookupEntry : List (String × Entry) → String → Option Entry
  | [], _ => none
  | (k', e) :: t, k => if k' = k then some e else lookupEntry t k

/-- Key removal in the pending map (JS `Map.delete`; keys are unique, so
`filter` has the same meaning). -/
def eraseKey (m : List (String × Entry)) (k : String) : List (String × Entry) :=
  m.filter (fun p => p.1 ≠ k)

/-- `clearTimeout(tid)`: the timer can no longer fire. -/
def clearTimer (timers : List Nat) (tid : Nat) : List Nat :=
  timers.filter (fun t => t ≠ tid)

/-- The `{...payload, id}` spread used when posting a request envelope:
the `id` property is (over)written on the payload object; spreading a
non-object yields an object holding only `id`. -/
def setIdField (p : Value) (id : String) : Value :=
  match p with
  | Value.obj kvs => Value.obj (kvs.filter (fun kv => kv.1 ≠ "id") ++ [("id", Value.str id)])
  | _ => Value.obj [("id", Value.str id)]

/-- The request envelope `{action, payload: {...payload, id}}` built by `call`.
(The `__wf_taskFnStrings` function-source map of v3.1.4 is elided: it serializes
the user task functions, which no claim inspects.) -/
def mkCallEnvelope (action : String) (payload : Value) (id : String) : Value :=
  Value.obj [("action", Value.str action), ("payload", setIdField payload id)]

namespace WF3

/-!
## WF3 — controller state machine of `src/workersFriend.js` v3.1.4

State of one `createCoreWorker` handle: the `pending` correlation map
(`Map` iterated in insertion order, modelled as an association list), the set
of armed `setTimeout` timers (a timer fires only while armed; `clearTimeout`
disarms it), the `Endpoint._revoked` flag (set once by `Endpoint.terminate`),
and the `nextId` / fresh-timer counters.
-/

/-- Controller-side state of a v3.1.4 handle. -/
structure CtrlState where
  pending : List (String × Entry)
  activeTimers : List Nat
  revoked : Bool
  nextId : Nat
  nextTimer : Nat

/-- State right after `createCoreWorker` returns. -/
def initState : CtrlState :=
  { pending := [], activeTimers := [], revoked := false, nextId := 0, nextTimer := 0 }

/-- The `ep.addEventListener('message', ...)` dispatcher, lines 291-317:
shape-validate, look up the pending entry (absent ⇒ return), clean up
(clear timer + delete) on a terminal action, then act on the action. -/
def dispatch (st : CtrlState) (d : Value) : CtrlState × List Effect :=
  match envId d, envAction d with
  | some id, some action =>
    match lookupEntry st.pending id with
    | none => (st, [])
    | some e =>
      let st' :=
        if action = "task:result" ∨ action = "error" ∨ action = "init-error" then
          { st with pending := eraseKey st.pending id,
                    activeTimers := clearTimer st.activeTimers e.timeoutId }
        else st
      let effs : List Effect :=
        if action = "progress" then [Effect.invokeProgress (getField d "message")]
        else if action = "task:result" then [Effect.resolveFuture id (getField d "payload")]
        else if action = "error" ∨ action = "init-error" then
          [Effect.rejectFuture id (RejectReason.workerError (getField d "error"))]
        else []
      (st', effs)
  | _, _ => (st, [])

/-- `call(action, payload)`, lines 320-347: allocate `String(nextId++)`, start
the timeout timer, register the pending entry, and post the request envelope
through the Endpoint (`Endpoint.postMessage` silently drops the post when the
endpoint has been revoked by `terminate`).  Returns the allocated id. -/
def call (st : CtrlState) (action : String) (payload : Value) :
    CtrlState × String × List Effect :=
  let id := jsString st.nextId
  let tid := st.nextTimer
  let st' : CtrlState :=
    { st with
      nextId := st.nextId + 1,
      nextTimer := st.nextTimer + 1,
      activeTimers := st.activeTimers ++ [tid],
      pending := st.pending ++ [(id, ⟨tid⟩)] }
  let effs : List Effect :=
    if st.revoked then [] else [Effect.postToBackend (mkCallEnvelope action payload id)]
  (st', id, effs)

/-- Expiry of the timeout timer registered by `call` for `(id, tid)`,
lines 329-332: `pending.delete(id); reject(timeout)`.  A timer only fires
while armed, and the callback belongs to the entry it was created with, so
the firing is guarded by both; a cleared or spent timer is a no-op. -/
def fireTimer (st : CtrlState) (id : String) (tid : Nat) : CtrlState × List Effect :=
  if lookupEntry st.pending id = some ⟨tid⟩ ∧ tid ∈ st.activeTimers then
    ({ st with pending := eraseKey st.pending id,
               activeTimers := clearTimer st.activeTimers tid },
     [Effect.rejectFuture id RejectReason.timeout])
  else (st, [])

/-- `terminate()`, lines 349-356: clear every pending entry's timer, reject each
with `Error('terminated')`, empty the map, then `ep.terminate()` (which stops
the raw backend and marks the Endpoint revoked). -/
def terminate (st : CtrlState) : CtrlState × List Effect :=
  ({ pending := [],
     activeTimers := st.pending.foldl (fun acc p => clearTimer acc p.2.timeoutId) st.activeTimers,
     revoked := true,
     nextId := st.nextId,
     nextTimer := st.nextTimer },
   st.pending.map (fun p => Effect.rejectFuture p.1 RejectReason.terminated)
     ++ [Effect.backendShutdown])

/-- Controller-turn events: an inbound envelope delivery, a timer expiry, a
`call`, or a `terminate` (each runs to completion on the single thread). -/
inductive Event where
  | deliver (d : Value) : Event
  | fire (id : String) (tid : Nat) : Event
  | doCall (action : String) (payload : Value) : Event
  | doTerminate : Event

/-- One controller turn. -/
def execEvent (st : CtrlState) : Event → CtrlState × List Effect
  | Event.deliver d => dispatch st d
  | Event.fire id tid => fireTimer st id tid
  | Event.doCall a p => let (st', _, effs) := call st a p; (st', effs)
  | Event.doTerminate => terminate st

/-- A whole schedule of controller turns, collecting the effect trace. -/
def exec (st : CtrlState) : List Event → CtrlState × List Effect
  | [] => (st, [])
  | ev :: evs =>
    let (st', effs) := execEvent st ev
    let (st'', effs') := exec st' evs
    (st'', effs ++ effs')

/-- Reachable-state invariant of the correlation registry: pending keys are
distinct stringified counters below `nextId`; entry timers are distinct, below
the timer counter, and armed. -/
structure Inv (st : CtrlState) : Prop where
  keyBound : ∀ p ∈ st.pending, ∃ n, p.1 = jsString n ∧ n < st.nextId
  keysNodup : (st.pending.map Prod.fst).Nodup
  timerBound : ∀ p ∈ st.pending, p.2.timeoutId < st.nextTimer
  timersNodup : (st.pending.map (fun p => p.2.timeoutId)).Nodup
  timerArmed : ∀ p ∈ st.pending, p.2.timeoutId ∈ st.activeTimers

/-- Trace invariant for the at-most-once settlement theorem: the state
invariant, plus: no id has settled twice, and a settled id is gone from the
map and can never be re-issued (its counter is in the past). -/
def Good (st : CtrlState) (effs : List Effect) : Prop :=
  Inv st ∧ (∀ id, settleCount effs id ≤ 1) ∧
    (∀ id, 1 ≤ settleCount effs id →
      lookupEntry st.pending id = none ∧ ∃ n, id = jsString n ∧ n < st.nextId)

end WF3

namespace WF6

/-!
## WF6 — controller state machine of `src/unnamed/part_001` v6.8.2

Same registry design as WF3 with three differences relevant to the claims:
the handle carries a `rawTerminated` flag set by `ep.terminate`, `call` checks
it and fails synchronously, and the progress channels are `live:data` /
`deferred:data` with payloads in `d.payload`.
-/

/-- Controller-side state of a v6.8.2 handle. -/
structure CtrlState where
  pending : List (String × Entry)
  activeTimers : List Nat
  rawTerminated : Bool
  nextId : Nat
  nextTimer : Nat

/-- State right after `createCoreWorker`'s promise resolves. -/
def initState : CtrlState :=
  { pending := [], activeTimers := [], rawTerminated := false, nextId := 0, nextTimer := 0 }

/-- The `ep.addEventListener('message', ...)` dispatcher, lines 222-242. -/
def dispatch (st : CtrlState) (d : Value) : CtrlState × List Effect :=
  match envId d, envAction d with
  | some id, some action =>
    match lookupEntry st.pending id with
    | none => (st, [])
    | some e =>
      let st' :=
        if action = "task:result" ∨ action = "error" ∨ action = "init-error" then
          { st with pending := eraseKey st.pending id,
                    activeTimers := clearTimer st.activeTimers e.timeoutId }
        else st
      let effs : List Effect :=
        if action = "live:data" then [Effect.invokeLive (getField d "payload")]
        else if action = "deferred:data" then [Effect.invokeDeferred (getField d "payload")]
        else if action = "task:result" then [Effect.resolveFuture id (getField d "payload")]
        else if action = "error" ∨ action = "init-error" then
          [Effect.rejectFuture id
            (RejectReason.workerError (getField d "error" |>.bind (fun e => getField e "message")))]
        else []
      (st', effs)
  | _, _ => (st, [])

/-- Result returned to the caller of `call`. -/
inductive CallResult where
  | alreadyTerminatedRejection : CallResult
  | pendingCall (id : String) : CallResult

/-- `call(action, payload)`, lines 251-285: when `rawTerminated` is set, return
an already-rejected promise synchronously, registering nothing and posting
nothing; otherwise allocate an id, arm the timeout, register the entry, and
post `{action, payload: {...payload, id}}`. -/
def call (st : CtrlState) (action : String) (payload : Value) :
    CtrlState × CallResult × List Effect :=
  if st.rawTerminated then
    (st, CallResult.alreadyTerminatedRejection, [])
  else
    let id := jsString st.nextId
    let tid := st.nextTimer
    let st' : CtrlState :=
      { st with
        nextId := st.nextId + 1,
        nextTimer := st.nextTimer + 1,
        activeTimers := st.activeTimers ++ [tid],
        pending := st.pending ++ [(id, ⟨tid⟩)] }
    (st', CallResult.pendingCall id,
      [Effect.postToBackend (mkCallEnvelope action payload id)])

/-- `ep.terminate`, lines 201-219: set `rawTerminated`, clear every pending
entry's timer and reject it with `Error("Worker terminated.")`, empty the map,
then release the raw backend. -/
def terminate (st : CtrlState) : CtrlState × List Effect :=
  ({ pending := [],
     activeTimers := st.pending.foldl (fun acc p => clearTimer acc p.2.timeoutId) st.activeTimers,
     rawTerminated := true,
     nextId := st.nextId,
     nextTimer := st.nextTimer },
   st.pending.map (fun p => Effect.rejectFuture p.1 RejectReason.terminated)
     ++ [Effect.backendShutdown])

end WF6

namespace Emu

/-!
## Emulator / Endpoint delivery model (v3.1.4 lines 72-81, 103-112, 138-141;
the v6.8.2 emulator `postMessage`, part_001 lines 94-100, has the same shape)

`MainThreadWorkerEmulator.postMessage` deep-clones the message and defers its
delivery through `setTimeout(..., 0)`.  The host macrotask queue is modelled
explicitly: a post while not terminated appends a delivery task; the handler
invocations performed *synchronously during the posting turn* are the second
component of each result — the source never invokes a handler inside
`postMessage`, which is exactly the register-before-response guarantee.
-/

/-- A deferred delivery task sitting in the host's macrotask queue. -/
inductive TurnTask where
  | deliverToWorker (data : Value) : TurnTask
  | deliverToMain (data : Value) : TurnTask

/-- Emulator state: its `terminated` flag plus the host macrotask queue. -/
structure EmuState where
  terminated : Bool
  queue : List TurnTask

/-- `MainThreadWorkerEmulator.postMessage(msg)` (main → worker), lines 103-112:
drop when terminated, else clone and schedule delivery; returns the (always
empty) list of handler invocations made during the calling turn. -/
def emulatorPost (st : EmuState) (msg : Value) : EmuState × List Value :=
  if st.terminated then (st, [])
  else ({ st with queue := st.queue ++ [TurnTask.deliverToWorker (sClone msg)] }, [])

/-- `scope.postMessage(msg)` (worker → main), lines 72-81: same deferral
toward the controller's listeners. -/
def scopePost (st : EmuState) (msg : Value) : EmuState × List Value :=
  if st.terminated then (st, [])
  else ({ st with queue := st.queue ++ [TurnTask.deliverToMain (sClone msg)] }, [])

/-- `Endpoint.postMessage(msg)`, lines 138-141: drop when revoked, else hand a
deep clone to the raw backend (here the emulator, which clones again). -/
def endpointPost (revoked : Bool) (st : EmuState) (msg : Value) : EmuState × List Value :=
  if revoked then (st, []) else emulatorPost st (sClone msg)

/-- The complete synchronous turn of `call` against the emulated backend
(v3.1.4 lines 328-338): arm the timer, register the pending entry, then post
the request envelope through the Endpoint — all before the turn ends.
Returns the new controller state, the new emulator state, and the handler
invocations that happened inside the turn. -/
def callTurn (cst : WF3.CtrlState) (est : EmuState) (action : String) (payload : Value) :
    (WF3.CtrlState × EmuState) × List Value :=
  let (cst', id, _) := WF3.call cst action payload
  let (est', sync) := endpointPost cst.revoked est (mkCallEnvelope action payload id)
  ((cst', est'), sync)

end Emu

namespace Sched

/-!
## Emulated time-sliced scheduler (v3.1.4 lines 237-263 with `finish`, 211-221)

The abort flag `ctrl.aborted` lives on the single thread: it can change only
between turns (a `cancel` message handler is itself a turn), so it is constant
during one slice.  `abSeq k` gives its value during slice number `k`.
The ≤20ms wall-clock budget of the inner `while` is modelled by an oracle
`budget` bounding how many iterations fit in the slice; `task.loop` is the
user function `loopF`, `task.teardown` is `teardown`.
-/

/-- Backend-side task state: the iteration counter / bound the loop protocol
uses, plus arbitrary user state. -/
structure TState (σ : Type) where
  i : Nat
  total : Nat
  user : σ

/-- `fib`, line 239: the inter-slice backoff `x === 0 ? 10 : min(⌊x·1.618⌋, 500)`
(the golden-ratio product modelled in integer thousandths). -/
def fibDelay (x : Nat) : Nat := if x = 0 then 10 else min (x * 1618 / 1000) 500

/-- The inner `while` of one slice, lines 245-252: run while `i < total`, the
slice budget remains, and the abort flag is unobserved; each iteration applies
`task.loop` then `state.i++`.  Also returns how many iterations ran. -/
def sliceLoop (loopF : TState σ → TState σ) (ab : Bool) :
    Nat → TState σ → TState σ × Nat
  | 0, s => (s, 0)
  | b + 1, s =>
    if s.i < s.total ∧ ab = false then
      let s1 := loopF s
      let (r, n) := sliceLoop loopF ab b { s1 with i := s1.i + 1 }
      (r, n + 1)
    else (s, 0)

/-- `finish`, lines 211-221: guarded on the abort flag; when clear, apply
`task.teardown` and emit the result. -/
def finish (teardown : TState σ → ρ) (ab : Bool) (s : TState σ) : Option ρ :=
  if ab then none else some (teardown s)

/-- Outcome of one `step` invocation. -/
inductive StepOut (σ ρ : Type) where
  | halted : StepOut σ ρ
  | reschedule (next : TState σ) (iters : Nat) (delay : Nat) : StepOut σ ρ
  | finished (final : TState σ) (iters : Nat) (emitted : Option ρ) : StepOut σ ρ

/-- One `step` invocation, lines 241-263: return at once if aborted; run the
inner while; then either re-arm `setTimeout(step, fib(delay))` or call
`finish`. -/
def step (loopF : TState σ → TState σ) (teardown : TState σ → ρ)
    (ab : Bool) (budget : Nat) (delay : Nat) (s : TState σ) : StepOut σ ρ :=
  if ab then StepOut.halted
  else
    let (s', n) := sliceLoop loopF ab budget s
    if s'.i < s'.total ∧ ab = false then StepOut.reschedule s' n (fibDelay delay)
    else StepOut.finished s' n (finish teardown ab s')

/-- The chain of slices started by `start_task` (`step()` self-rescheduling):
slice `k` sees abort flag `abSeq k` and slice budget `budget k`; `fuel` bounds
the number of slices the model runs.  Returns the final task state, the total
number of loop iterations executed, and the emitted result if any. -/
def run (loopF : TState σ → TState σ) (teardown : TState σ → ρ)
    (abSeq : Nat → Bool) (budget : Nat → Nat) :
    Nat → Nat → Nat → TState σ → TState σ × Nat × Option ρ
  | 0, _, _, s => (s, 0, none)
  | fuel + 1, k, delay, s =>
    match step loopF teardown (abSeq k) (budget k) delay s with
    | StepOut.halted => (s, 0, none)
    | StepOut.reschedule s' n d' =>
      let (s'', m, r) := run loopF teardown abSeq budget fuel (k + 1) d' s'
      (s'', n + m, r)
    | StepOut.finished s' n r => (s', n, r)

end Sched

namespace WorkerScript

/-!
## Worker script `src/src/workersFriend.worker.js` v6.7.0 (lines 6-36)

`start_loop_task`: a hardcoded series loop over `iterations` steps; after each
`i++`, when `i % 50000 === 0` it posts a `live:data` progress envelope; after
the loop it posts the single `task:result` envelope.  The floating-point `pi`
accumulator is not modelled (no claim depends on its value); the messages and
their order are.
-/

/-- Messages the worker script posts, in order. -/
inductive WMsg where
  | live (i : Nat) : WMsg
  | result : WMsg

/-- Is this a live-progress message? -/
def isLive : WMsg → Bool
  | WMsg.live _ => true
  | WMsg.result => false

/-- The progress cadence hardcoded at line 25. -/
def progressEvery : Nat := 50000

/-- `const aborted = false;` (line 16) — the script never sets it. -/
def aborted : Bool := false

/-- The `while (!aborted && i < totalIterations)` loop body starting from
counter `i` (fuel = remaining structural bound, always instantiated to cover
`total - i`): emits `live` at every multiple of `K` reached by `i++`. -/
def loopEmit (K total : Nat) : Nat → Nat → List WMsg
  | 0, _ => []
  | fuel + 1, i =>
    if !aborted && i < total then
      (if (i + 1) % K == 0 then [WMsg.live (i + 1)] else []) ++ loopEmit K total fuel (i + 1)
    else []

/-- The whole `start_loop_task` handler's outbound traffic for
`{iterations := total}`. -/
def runTask (total : Nat) : List WMsg :=
  loopEmit progressEvery total total 0 ++ [WMsg.result]

end WorkerScript

namespace Create

/-!
## Worker-source validation in `createCoreWorker` (part_001 lines 132-190)

`options` may carry `workerUrl`, `taskString`, `taskElementId` (absent =
`undefined`; JS `filter(Boolean)` also drops an empty string).  External
collaborators are parameters: `domScript id` returns the text of a `<script>`
element with that id (and `none` when the element is missing or is not a
script tag), `fetchScript url` the fetched text, `workerAvailable` whether
`typeof Worker === 'function'`.
-/

/-- The option fields naming a program source. -/
structure CreateOptions where
  workerUrl : Option String
  taskString : Option String
  taskElementId : Option String
  useWorkerThread : Bool

/-- `[workerUrl, taskString, taskElementId].filter(Boolean)` (line 151). -/
def providedSources (o : CreateOptions) : List String :=
  ([o.workerUrl, o.taskString, o.taskElementId].filterMap id).filter (fun s => s ≠ "")

/-- A constructed backend instance. -/
inductive BackendInstance where
  | realWorker (url : String) : BackendInstance
  | emulator (script : String) : BackendInstance

/-- Model of `createBlobURL` (lines 32-35): an in-memory URL naming the text. -/
def blobUrlOf (s : String) : String := "blob:" ++ s

/-- The synchronous-validation prefix of `createCoreWorker` (lines 149-190) up
to backend construction: returns either the rejection message or the
constructed backend, together with every backend instance constructed on the
way (empty on every error path that precedes construction). -/
def createCoreWorkerInit (o : CreateOptions) (domScript : String → Option String)
    (fetchScript : String → Option String) (workerAvailable : Bool) :
    Except String BackendInstance × List BackendInstance :=
  let provided := providedSources o
  if provided.length = 0 then
    (Except.error "A worker URL, script string, or element ID must be provided.", [])
  else if 1 < provided.length then
    (Except.error "Ambiguous worker source: Only one of workerUrl, taskString, or taskElementId can be specified.", [])
  else
    match o.taskString with
    | some s =>
      if s ≠ "" then
        if ¬o.useWorkerThread then (Except.ok (BackendInstance.emulator s), [BackendInstance.emulator s])
        else if workerAvailable then
          (Except.ok (BackendInstance.realWorker (blobUrlOf s)), [BackendInstance.realWorker (blobUrlOf s)])
        else (Except.error "Logic error: Could not create worker instance.", [])
      else (Except.error "unreachable: source counted as provided", [])
    | none =>
      match o.taskElementId with
      | some eid =>
        if eid ≠ "" then
          match domScript eid with
          | none => (Except.error "Element not found or is not a script tag.", [])
          | some content =>
            if ¬o.useWorkerThread then
              (Except.ok (BackendInstance.emulator content), [BackendInstance.emulator content])
            else if workerAvailable then
              (Except.ok (BackendInstance.realWorker (blobUrlOf content)),
               [BackendInstance.realWorker (blobUrlOf content)])
            else (Except.error "Logic error: Could not create worker instance.", [])
        else (Except.error "unreachable: source counted as provided", [])
      | none =>
        match o.workerUrl with
        | some url =>
          if url ≠ "" then
            if ¬o.useWorkerThread then
              match fetchScript url with
              | none => (Except.error "Failed to fetch script for emulation.", [])
              | some content =>
                (Except.ok (BackendInstance.emulator content), [BackendInstance.emulator content])
            else if workerAvailable then
              (Except.ok (BackendInstance.realWorker url), [BackendInstance.realWorker url])
            else (Except.error "Logic error: Could not create worker instance.", [])
          else (Except.error "unreachable: source counted as provided", [])
        | none => (Except.error "unreachable: no source provided", [])

end Create

/-- A well-shaped response envelope `{id, action, payload}` as posted by the
worker side. -/
def mkResponseEnvelope (id action : String) (payload : Value) : Value :=
  Value.obj [("id", Value.str id), ("action", Value.str action), ("payload", payload)]

/-- A v3.1.4 progress envelope `{id, action: 'progress', message}` as posted by
the worker-side `_onP`. -/
def mkProgressEnvelope (id : String) (msg : Value) : Value :=
  Value.obj [("id", Value.str id), ("action", Value.str "progress"), ("message", msg)]

/-- A parse continuation at which a greedy JSON number stops: end of input or a
structural delimiter (the only characters that can follow a printed value
inside a printed arrangement). -/
def delimOk (rest : List Char) : Prop :=
  rest = [] ∨ ∃ c cs, rest = c :: cs ∧ (c = ',' ∨ c = ']' ∨ c = rbraceC)

/-! # Theorems -/

/-! ## Decimal digits and numbers -/

theorem digitVal_digitChar {d : Nat} (h : d < 10) : digitVal (digitChar d) = d := by
  interval_cases d <;> rfl

theorem isDigitChar_digitChar {d : Nat} (h : d < 10) : isDigitChar (digitChar d) = true := by
  interval_cases d <;> rfl

theorem natDigitsGo_spec : ∀ n, ∀ f acc, n < f → natDigitsGo f n acc = natDigits n ++ acc := by
  intro n
  induction n using Nat.strong_induction_on with
  | _ n ih =>
    intro f acc hf
    match f, hf with
    | f + 1, _ =>
      by_cases h10 : n < 10
      · simp [natDigitsGo, natDigits, h10]
      · have hn0 : 0 < n := by omega
        have hdiv : n / 10 < n := Nat.div_lt_self hn0 (by omega)
        have hdivf : n / 10 < f := by omega
        have hdivn : n / 10 < n + 1 := by omega
        simp only [natDigitsGo, if_neg h10]
        rw [ih (n / 10) hdiv f _ hdivf]
        conv_rhs => rw [natDigits, natDigitsGo, if_neg h10,
          ih (n / 10) hdiv n _ (by omega)]
        simp

theorem natDigits_small {n : Nat} (h : n < 10) : natDigits n = [digitChar n] := by
  simp [natDigits, natDigitsGo, h]

theorem natDigits_large {n : Nat} (h : 10 ≤ n) :
    natDigits n = natDigits (n / 10) ++ [digitChar (n % 10)] := by
  have h10 : ¬ n < 10 := by omega
  have hdiv : n / 10 < n := Nat.div_lt_self (by omega) (by omega)
  rw [natDigits, natDigitsGo, if_neg h10, natDigitsGo_spec (n / 10) n _ (by omega)]

theorem natDigits_all_digits : ∀ n, ∀ c ∈ natDigits n, isDigitChar c = true := by
  intro n
  induction n using Nat.strong_induction_on with
  | _ n ih =>
    intro c hc
    by_cases h10 : n < 10
    · rw [natDigits_small h10] at hc
      simp at hc
      subst hc
      exact isDigitChar_digitChar h10
    · rw [natDigits_large (by omega)] at hc
      rcases List.mem_append.mp hc with h | h
      · exact ih (n / 10) (Nat.div_lt_self (by omega) (by omega)) c h
      · simp at h
        subst h
        exact isDigitChar_digitChar (Nat.mod_lt _ (by omega))

theorem natDigits_ne_nil (n : Nat) : natDigits n ≠ [] := by
  by_cases h10 : n < 10
  · rw [natDigits_small h10]; simp
  · rw [natDigits_large (by omega)]; simp

theorem natDigits_head_digit (n : Nat) :
    ∃ c cs, natDigits n = c :: cs ∧ isDigitChar c = true := by
  match hd : natDigits n with
  | [] => exact absurd hd (natDigits_ne_nil n)
  | c :: cs =>
    refine ⟨c, cs, rfl, natDigits_all_digits n c ?_⟩
    rw [hd]; simp

theorem parseNatGo_natDigits : ∀ n, ∀ a rest,
    parseNatGo a (natDigits n ++ rest) =
      parseNatGo (a * 10 ^ (natDigits n).length + n) rest := by
  intro n
  induction n using Nat.strong_induction_on with
  | _ n ih =>
    intro a rest
    by_cases h10 : n < 10
    · rw [natDigits_small h10]
      simp [parseNatGo, isDigitChar_digitChar h10, digitVal_digitChar h10]
    · have hdiv : n / 10 < n := Nat.div_lt_self (by omega) (by omega)
      have hmod : n % 10 < 10 := Nat.mod_lt _ (by omega)
      rw [natDigits_large (by omega), List.append_assoc, List.cons_append, List.nil_append,
        ih (n / 10) hdiv a _]
      simp only [parseNatGo, isDigitChar_digitChar hmod, if_pos, digitVal_digitChar hmod]
      have hlen : (natDigits (n / 10) ++ [digitChar (n % 10)]).length =
          (natDigits (n / 10)).length + 1 := by simp
      rw [hlen]
      have : (a * 10 ^ (natDigits (n / 10)).length + n / 10) * 10 + n % 10 =
          a * 10 ^ ((natDigits (n / 10)).length + 1) + n := by
        have hnm : 10 * (n / 10) + n % 10 = n := Nat.div_add_mod n 10
        ring_nf
        omega
      rw [this]

theorem parseNatGo_stop {rest : List Char} (a : Nat)
    (h : ∀ c cs, rest = c :: cs → isDigitChar c = false) :
    parseNatGo a rest = (a, rest) := by
  match rest with
  | [] => rfl
  | c :: cs => simp [parseNatGo, h c cs rfl]

theorem natDigits_inj : Function.Injective natDigits := by
  intro n m h
  have hn := parseNatGo_natDigits n 0 []
  have hm := parseNatGo_natDigits m 0 []
  rw [h] at hn
  rw [hn] at hm
  simpa [parseNatGo] using hm

theorem jsString_inj : Function.Injective jsString := by
  intro n m h
  apply natDigits_inj
  have := congrArg String.data h
  simpa [jsString] using this

/-! ## JSON printer/parser round-trip -/

theorem delimOk_nil : delimOk [] := Or.inl rfl

theorem delimOk_comma (cs : List Char) : delimOk (',' :: cs) :=
  Or.inr ⟨',', cs, rfl, Or.inl rfl⟩

theorem delimOk_rbrack (cs : List Char) : delimOk (']' :: cs) :=
  Or.inr ⟨']', cs, rfl, Or.inr (Or.inl rfl)⟩

theorem delimOk_rbrace (cs : List Char) : delimOk (rbraceC :: cs) :=
  Or.inr ⟨rbraceC, cs, rfl, Or.inr (Or.inr rfl)⟩

theorem delimOk_no_digit {rest : List Char} (h : delimOk rest) :
    ∀ c cs, rest = c :: cs → isDigitChar c = false := by
  intro c cs hrest
  rcases h with h | ⟨c', cs', hr, hc⟩
  · simp [hrest] at h
  · rw [hrest] at hr
    injection hr with h1 _
    subst h1
    rcases hc with h | h | h <;> subst h <;> decide

theorem digit_not_keyword {c : Char} (h : isDigitChar c = true) :
    c ≠ 'n' ∧ c ≠ 't' ∧ c ≠ 'f' ∧ c ≠ quoteC ∧ c ≠ '-' ∧ c ≠ '[' ∧ c ≠ lbraceC ∧
    c ≠ ']' ∧ c ≠ rbraceC ∧ c ≠ ',' := by
  refine ⟨?_, ?_, ?_, ?_, ?_, ?_, ?_, ?_, ?_, ?_⟩ <;>
    (intro hc; subst hc; exact absurd h (by decide))

theorem dropLit_append (p rest : List Char) : dropLit p (p ++ rest) = some rest := by
  induction p with
  | nil => rfl
  | cons c cs ih => simp [dropLit, ih]

theorem parseStrGo_quote (cs : List Char) : parseStrGo (quoteC :: cs) = some ([], cs) := by
  rw [parseStrGo.eq_def]; simp

theorem parseStrGo_backslash (e : Char) (cs : List Char) :
    parseStrGo (backslashC :: e :: cs) =
      match parseStrGo cs with
      | none => none
      | some (s, r) => some (unescChar e :: s, r) := by
  rw [parseStrGo.eq_def]
  simp [show ¬ backslashC = quoteC by decide]

theorem parseStrGo_other {c : Char} (h1 : c ≠ quoteC) (h2 : c ≠ backslashC) (cs : List Char) :
    parseStrGo (c :: cs) =
      match parseStrGo cs with
      | none => none
      | some (s, r) => some (c :: s, r) := by
  rw [parseStrGo.eq_def]
  simp [h1, h2]

theorem parseStrGo_escape : ∀ s rest,
    parseStrGo (escapeStr s ++ quoteC :: rest) = some (s, rest) := by
  intro s
  induction s with
  | nil => intro rest; rw [escapeStr, List.nil_append, parseStrGo_quote]
  | cons c cs ih =>
    intro rest
    by_cases hc : c = quoteC ∨ c = backslashC
    · have hu : unescChar c = c := by
        rcases hc with h | h <;> subst h <;> decide
      rw [escapeStr, escapeChar, if_pos hc]
      simp only [List.cons_append, List.nil_append, List.singleton_append]
      rw [parseStrGo_backslash, ih, hu]
    · push_neg at hc
      rw [escapeStr, escapeChar, if_neg (by tauto)]
      simp only [List.cons_append, List.nil_append, List.singleton_append]
      rw [parseStrGo_other hc.1 hc.2, ih]

theorem stringifyV_ne_nil : ∀ v, stringifyV v ≠ [] := by
  intro v
  match v with
  | Value.null | Value.bool true | Value.bool false => simp [stringifyV]
  | Value.num (Int.ofNat n) => simpa [stringifyV, intChars] using natDigits_ne_nil n
  | Value.num (Int.negSucc m) => simp [stringifyV, intChars]
  | Value.str s => simp [stringifyV]
  | Value.arr [] | Value.arr (x :: xs) => simp [stringifyV]
  | Value.obj [] | Value.obj (kv :: kvs) => simp [stringifyV]

theorem stringifyV_head_ne_delims : ∀ v c cs, stringifyV v = c :: cs →
    c ≠ ']' ∧ c ≠ rbraceC ∧ c ≠ ',' := by
  intro v c cs h
  match v with
  | Value.null => rw [stringifyV] at h; injection h with h1 _; subst h1; refine ⟨by decide, by decide, by decide⟩
  | Value.bool true => rw [stringifyV] at h; injection h with h1 _; subst h1; refine ⟨by decide, by decide, by decide⟩
  | Value.bool false => rw [stringifyV] at h; injection h with h1 _; subst h1; refine ⟨by decide, by decide, by decide⟩
  | Value.num (Int.ofNat n) =>
    rw [stringifyV, intChars] at h
    obtain ⟨c', cs', hd, hdig⟩ := natDigits_head_digit n
    rw [hd] at h
    injection h with h1 _
    subst h1
    obtain ⟨_, _, _, _, _, _, _, h8, h9, h10⟩ := digit_not_keyword hdig
    exact ⟨h8, h9, h10⟩
  | Value.num (Int.negSucc m) =>
    rw [stringifyV, intChars] at h; injection h with h1 _; subst h1
    refine ⟨by decide, by decide, by decide⟩
  | Value.str s =>
    rw [stringifyV] at h; injection h with h1 _; subst h1
    refine ⟨by decide, by decide, by decide⟩
  | Value.arr [] =>
    rw [stringifyV] at h; injection h with h1 _; subst h1
    refine ⟨by decide, by decide, by decide⟩
  | Value.arr (x :: xs) =>
    rw [stringifyV] at h; injection h with h1 _; subst h1
    refine ⟨by decide, by decide, by decide⟩
  | Value.obj [] =>
    rw [stringifyV] at h; injection h with h1 _; subst h1
    refine ⟨by decide, by decide, by decide⟩
  | Value.obj (kv :: kvs) =>
    rw [stringifyV] at h; injection h with h1 _; subst h1
    refine ⟨by decide, by decide, by decide⟩

theorem stringifyElems_head (x : Value) (xs : List Value) :
    ∃ c cs cs', stringifyElems x xs = c :: cs ∧ stringifyV x = c :: cs' := by
  match hx : stringifyV x with
  | [] => exact absurd hx (stringifyV_ne_nil x)
  | c :: cs' =>
    match xs with
    | [] => exact ⟨c, cs', cs', by rw [stringifyElems, hx], rfl⟩
    | w :: ws =>
      refine ⟨c, cs' ++ ',' :: stringifyElems w ws, cs', ?_, rfl⟩
      rw [stringifyElems, hx]
      simp


theorem stringifyMembers_head (kv : String × Value) (kvs : List (String × Value)) :
    ∃ cs, stringifyMembers kv kvs = quoteC :: cs := by
  obtain ⟨k, v⟩ := kv
  match kvs with
  | [] =>
    refine ⟨escapeStr k.data ++ quoteC :: ':' :: stringifyV v, ?_⟩
    rw [stringifyMembers]
    simp
  | m :: ms =>
    refine ⟨escapeStr k.data ++ quoteC :: ':' :: (stringifyV v ++ ',' :: stringifyMembers m ms), ?_⟩
    rw [stringifyMembers]
    simp

theorem parse_print_roundtrip : ∀ f,
    (∀ v rest, (stringifyV v).length < f → delimOk rest →
      parseV f (stringifyV v ++ rest) = some (v, rest)) ∧
    (∀ x xs rest, (stringifyElems x xs).length + 1 < f →
      parseElems f (stringifyElems x xs ++ ']' :: rest) = some (x :: xs, rest)) ∧
    (∀ kv kvs rest, (stringifyMembers kv kvs).length + 1 < f →
      parseMembers f (stringifyMembers kv kvs ++ rbraceC :: rest) = some (kv :: kvs, rest)) := by
  intro f
  induction f using Nat.strong_induction_on with
  | _ f ih =>
    refine ⟨?_, ?_, ?_⟩
    · intro v rest hlen hrest
      obtain ⟨f, rfl⟩ : ∃ g, f = g + 1 := ⟨f - 1, by omega⟩
      match v with
      | Value.null =>
        rw [show stringifyV Value.null = ['n', 'u', 'l', 'l'] by rw [stringifyV]]
        simp +decide [parseV, nullCase, dropLit]
      | Value.bool true =>
        rw [show stringifyV (Value.bool true) = ['t', 'r', 'u', 'e'] by rw [stringifyV]]
        simp +decide [parseV, trueCase, dropLit]
      | Value.bool false =>
        rw [show stringifyV (Value.bool false) = ['f', 'a', 'l', 's', 'e'] by rw [stringifyV]]
        simp +decide [parseV, falseCase, dropLit]
      | Value.num (Int.ofNat n) =>
        have hstr : stringifyV (Value.num (Int.ofNat n)) = natDigits n := by
          rw [stringifyV, intChars]
        obtain ⟨c, cs, hd, hdig⟩ := natDigits_head_digit n
        obtain ⟨h1, h2, h3, h4, h5, h6, h7, _, _, _⟩ := digit_not_keyword hdig
        have hp : parseNatGo (digitVal c) (cs ++ rest) = (n, rest) := by
          have h0 : parseNatGo 0 (natDigits n ++ rest) = (n, rest) := by
            rw [parseNatGo_natDigits]
            simpa using parseNatGo_stop _ (delimOk_no_digit hrest)
          rw [hd] at h0
          simpa [parseNatGo, hdig] using h0
        rw [hstr, hd]
        simp only [List.cons_append]
        simp [parseV, h1, h2, h3, h4, h5, hdig, numCase, hp]
      | Value.num (Int.negSucc m) =>
        have hstr : stringifyV (Value.num (Int.negSucc m)) = '-' :: natDigits (m + 1) := by
          rw [stringifyV, intChars]
        obtain ⟨c, cs, hd, hdig⟩ := natDigits_head_digit (m + 1)
        have hp : parseNatGo (digitVal c) (cs ++ rest) = (m + 1, rest) := by
          have h0 : parseNatGo 0 (natDigits (m + 1) ++ rest) = (m + 1, rest) := by
            rw [parseNatGo_natDigits]
            simpa using parseNatGo_stop _ (delimOk_no_digit hrest)
          rw [hd] at h0
          simpa [parseNatGo, hdig] using h0
        rw [hstr, hd]
        simp only [List.cons_append]
        simp +decide [parseV, negCase, hdig, hp]
        rw [Int.negSucc_eq]
        ring
      | Value.str s =>
        obtain ⟨sd⟩ := s
        have hstr : stringifyV (Value.str ⟨sd⟩) = quoteC :: (escapeStr sd ++ [quoteC]) := by
          rw [stringifyV]
        rw [hstr]
        simp only [List.cons_append, List.append_assoc, List.singleton_append]
        simp +decide [parseV, strCase, parseStrGo_escape]
      | Value.arr [] =>
        rw [show stringifyV (Value.arr []) = ['[', ']'] by rw [stringifyV]]
        simp +decide [parseV, arrCase]
      | Value.arr (x :: xs) =>
        have hstr : stringifyV (Value.arr (x :: xs)) = '[' :: (stringifyElems x xs ++ [']']) := by
          rw [stringifyV]
        obtain ⟨c0, cs0, cs0', he, hx⟩ := stringifyElems_head x xs
        obtain ⟨hne1, hne2, hne3⟩ := stringifyV_head_ne_delims x c0 cs0' hx
        have hlen2 : (stringifyElems x xs).length + 1 < f := by
          rw [hstr] at hlen
          simp at hlen
          omega
        have hel : parseElems f (stringifyElems x xs ++ ']' :: rest) = some (x :: xs, rest) :=
          (ih f (by omega)).2.1 x xs rest hlen2
        rw [hstr]
        simp only [List.cons_append, List.append_assoc, List.singleton_append]
        rw [he]
        simp only [List.cons_append]
        simp +decide [parseV, arrCase, hne1]
        rw [show c0 :: (cs0 ++ ']' :: rest) = stringifyElems x xs ++ ']' :: rest by
          rw [he]; simp]
        simp [hel]
      | Value.obj [] =>
        rw [show stringifyV (Value.obj []) = [lbraceC, rbraceC] by rw [stringifyV]]
        simp +decide [parseV, objCase]
      | Value.obj (kv :: kvs) =>
        have hstr : stringifyV (Value.obj (kv :: kvs)) =
            lbraceC :: (stringifyMembers kv kvs ++ [rbraceC]) := by
          rw [stringifyV]
        obtain ⟨cs0, he⟩ := stringifyMembers_head kv kvs
        have hlen2 : (stringifyMembers kv kvs).length + 1 < f := by
          rw [hstr] at hlen
          simp at hlen
          omega
        have hms : parseMembers f (stringifyMembers kv kvs ++ rbraceC :: rest) =
            some (kv :: kvs, rest) :=
          (ih f (by omega)).2.2 kv kvs rest hlen2
        rw [hstr]
        simp only [List.cons_append, List.append_assoc, List.singleton_append]
        rw [he]
        simp only [List.cons_append]
        simp +decide [parseV, objCase]
        rw [show quoteC :: (cs0 ++ rbraceC :: rest) = stringifyMembers kv kvs ++ rbraceC :: rest by
          rw [he]; simp]
        simp [hms]
    · intro x xs rest hlen
      obtain ⟨f, rfl⟩ : ∃ g, f = g + 1 := ⟨f - 1, by omega⟩
      match xs with
      | [] =>
        have he : stringifyElems x [] = stringifyV x := by rw [stringifyElems]
        rw [he] at hlen ⊢
        have h1 : parseV f (stringifyV x ++ ']' :: rest) = some (x, ']' :: rest) :=
          (ih f (by omega)).1 x (']' :: rest) (by omega) (delimOk_rbrack rest)
        simp +decide [parseElems, h1, elemsCont]
      | w :: ws =>
        have he : stringifyElems x (w :: ws) = stringifyV x ++ ',' :: stringifyElems w ws := by
          rw [stringifyElems]
        rw [he] at hlen ⊢
        have hlx : (stringifyV x).length < f := by
          simp [List.length_append] at hlen
          omega
        have hlw : (stringifyElems w ws).length + 1 < f := by
          simp [List.length_append] at hlen
          omega
        have h1 : parseV f (stringifyV x ++ ',' :: (stringifyElems w ws ++ ']' :: rest)) =
            some (x, ',' :: (stringifyElems w ws ++ ']' :: rest)) :=
          (ih f (by omega)).1 x _ hlx (delimOk_comma _)
        have h2 : parseElems f (stringifyElems w ws ++ ']' :: rest) = some (w :: ws, rest) :=
          (ih f (by omega)).2.1 w ws rest hlw
        simp only [List.cons_append, List.append_assoc]
        simp +decide [parseElems, h1, elemsCont, h2]
    · intro kv kvs rest hlen
      obtain ⟨f, rfl⟩ : ∃ g, f = g + 1 := ⟨f - 1, by omega⟩
      obtain ⟨k, v⟩ := kv
      obtain ⟨kd⟩ := k
      match kvs with
      | [] =>
        have he : stringifyMembers (⟨kd⟩, v) [] =
            (quoteC :: (escapeStr kd ++ [quoteC])) ++ ':' :: stringifyV v := by
          rw [stringifyMembers]
        rw [he] at hlen ⊢
        have hlv : (stringifyV v).length < f := by
          simp [List.length_append] at hlen
          omega
        have h1 : parseV f (stringifyV v ++ rbraceC :: rest) = some (v, rbraceC :: rest) :=
          (ih f (by omega)).1 v (rbraceC :: rest) hlv (delimOk_rbrace rest)
        simp only [List.cons_append, List.append_assoc, List.singleton_append]
        simp +decide [parseMembers, parseStrGo_escape, keyCont, h1, membersCont]
      | m :: ms =>
        have he : stringifyMembers (⟨kd⟩, v) (m :: ms) =
            (quoteC :: (escapeStr kd ++ [quoteC])) ++ ':' :: stringifyV v ++
              ',' :: stringifyMembers m ms := by
          rw [stringifyMembers]
        rw [he] at hlen ⊢
        have hlv : (stringifyV v).length < f := by
          simp [List.length_append] at hlen
          omega
        have hlm : (stringifyMembers m ms).length + 1 < f := by
          simp [List.length_append] at hlen
          omega
        have h1 : parseV f (stringifyV v ++ ',' :: (stringifyMembers m ms ++ rbraceC :: rest)) =
            some (v, ',' :: (stringifyMembers m ms ++ rbraceC :: rest)) :=
          (ih f (by omega)).1 v _ hlv (delimOk_comma _)
        have h2 : parseMembers f (stringifyMembers m ms ++ rbraceC :: rest) =
            some (m :: ms, rest) :=
          (ih f (by omega)).2.2 m ms rest hlm
        simp only [List.cons_append, List.append_assoc, List.singleton_append]
        simp +decide [parseMembers, parseStrGo_escape, keyCont, h1, membersCont, h2]

theorem jsonClone_id (v : Value) : jsonClone v = some v := by
  have h := (parse_print_roundtrip ((stringifyV v).length + 1)).1 v [] (by omega) delimOk_nil
  rw [List.append_nil] at h
  unfold jsonClone jsonParse
  rw [h]

mutual

theorem sClone_id : ∀ v, sClone v = v
  | Value.null => by rw [sClone]
  | Value.bool b => by rw [sClone]
  | Value.num n => by rw [sClone]
  | Value.str s => by rw [sClone]
  | Value.arr xs => by rw [sClone, sCloneL_id xs]
  | Value.obj kvs => by rw [sClone, sCloneM_id kvs]

theorem sCloneL_id : ∀ xs, sCloneL xs = xs
  | [] => by rw [sCloneL]
  | v :: vs => by rw [sCloneL, sClone_id v, sCloneL_id vs]

theorem sCloneM_id : ∀ kvs, sCloneM kvs = kvs
  | [] => by rw [sCloneM]
  | (k, v) :: kvs => by rw [sCloneM, sClone_id v, sCloneM_id kvs]

end

/-! ## Correlation-registry list lemmas -/

theorem lookupEntry_eq_none_iff (l : List (String × Entry)) (k : String) :
    lookupEntry l k = none ↔ k ∉ l.map Prod.fst := by
  induction l with
  | nil => simp [lookupEntry]
  | cons p t ih =>
    obtain ⟨k', e⟩ := p
    by_cases h : k' = k
    · subst h
      simp [lookupEntry]
    · simp [lookupEntry, h, ih, Ne.symm h]

theorem lookupEntry_mem {l : List (String × Entry)} {k : String} {e : Entry}
    (h : lookupEntry l k = some e) : (k, e) ∈ l := by
  induction l with
  | nil => simp [lookupEntry] at h
  | cons p t ih =>
    obtain ⟨k', e'⟩ := p
    by_cases hk : k' = k
    · subst hk
      simp [lookupEntry] at h
      simp [h]
    · simp [lookupEntry, hk] at h
      simp [ih h]

theorem lookupEntry_isSome_of_mem {l : List (String × Entry)} {k : String}
    (h : k ∈ l.map Prod.fst) : ∃ e, lookupEntry l k = some e := by
  match he : lookupEntry l k with
  | some e => exact ⟨e, rfl⟩
  | none => exact absurd ((lookupEntry_eq_none_iff l k).mp he) (by simp [h])

theorem lookupEntry_append_none {l₁ l₂ : List (String × Entry)} {k : String}
    (h : lookupEntry l₁ k = none) : lookupEntry (l₁ ++ l₂) k = lookupEntry l₂ k := by
  induction l₁ with
  | nil => simp
  | cons p t ih =>
    obtain ⟨k', e'⟩ := p
    by_cases hk : k' = k
    · subst hk; simp [lookupEntry] at h
    · simp [lookupEntry, hk] at h ⊢
      exact ih h

theorem mem_eraseKey {l : List (String × Entry)} {k : String} {p : String × Entry} :
    p ∈ eraseKey l k ↔ p ∈ l ∧ p.1 ≠ k := by
  simp [eraseKey, List.mem_filter]

theorem lookupEntry_eraseKey_self (l : List (String × Entry)) (k : String) :
    lookupEntry (eraseKey l k) k = none := by
  rw [lookupEntry_eq_none_iff]
  intro h
  obtain ⟨p, hp, hfst⟩ := List.mem_map.mp h
  exact absurd hfst (mem_eraseKey.mp hp).2

theorem lookupEntry_eraseKey_none {l : List (String × Entry)} {k k' : String}
    (h : lookupEntry l k' = none) : lookupEntry (eraseKey l k) k' = none := by
  rw [lookupEntry_eq_none_iff] at h ⊢
  intro hmem
  obtain ⟨p, hp, hfst⟩ := List.mem_map.mp hmem
  exact h (List.mem_map.mpr ⟨p, (mem_eraseKey.mp hp).1, hfst⟩)

theorem eraseKey_map_sublist (l : List (String × Entry)) (k : String)
    (f : String × Entry → α) : ((eraseKey l k).map f).Sublist (l.map f) :=
  List.Sublist.map f (List.filter_sublist l)

theorem mem_clearTimer {timers : List Nat} {tid t : Nat} :
    t ∈ clearTimer timers tid ↔ t ∈ timers ∧ t ≠ tid := by
  simp [clearTimer, List.mem_filter]

/-! ## Settle-count lemmas -/

theorem settleCount_nil (id : String) : settleCount [] id = 0 := rfl

theorem settleCount_cons (e : Effect) (es : List Effect) (id : String) :
    settleCount (e :: es) id =
      (if isSettleFor id e then 1 else 0) + settleCount es id := by
  simp only [settleCount, List.filter_cons]
  cases h : isSettleFor id e <;> simp [Nat.add_comm]

theorem settleCount_append (a b : List Effect) (id : String) :
    settleCount (a ++ b) id = settleCount a id + settleCount b id := by
  simp [settleCount, List.filter_append]

theorem settleCount_rejects_not_mem (ps : List (String × Entry)) (id : String)
    (h : id ∉ ps.map Prod.fst) :
    settleCount (ps.map fun p => Effect.rejectFuture p.1 RejectReason.terminated) id = 0 := by
  induction ps with
  | nil => rfl
  | cons p t ih =>
    simp only [List.map_cons, settleCount_cons]
    simp only [List.map_cons, List.mem_cons] at h
    push_neg at h
    have h1 : isSettleFor id (Effect.rejectFuture p.1 RejectReason.terminated) = false := by
      simp [isSettleFor]
      exact Ne.symm h.1
    simp [h1, ih h.2]

theorem settleCount_rejects_nodup_mem (ps : List (String × Entry)) (id : String)
    (hnd : (ps.map Prod.fst).Nodup) (h : id ∈ ps.map Prod.fst) :
    settleCount (ps.map fun p => Effect.rejectFuture p.1 RejectReason.terminated) id = 1 := by
  induction ps with
  | nil => simp at h
  | cons p t ih =>
    simp only [List.map_cons, settleCount_cons]
    simp only [List.map_cons, List.nodup_cons] at hnd
    simp only [List.map_cons, List.mem_cons] at h
    rcases h with h | h
    · subst h
      have h1 : isSettleFor p.1 (Effect.rejectFuture p.1 RejectReason.terminated) = true := by
        simp [isSettleFor]
      rw [settleCount_rejects_not_mem t p.1 hnd.1]
      simp [h1]
    · have hne : p.1 ≠ id := by
        intro heq
        rw [heq] at hnd
        exact hnd.1 h
      have h1 : isSettleFor id (Effect.rejectFuture p.1 RejectReason.terminated) = false := by
        simp [isSettleFor]
        exact hne
      simp [h1, ih hnd.2 h]

namespace WF3

/-! ## Registry invariant and at-most-once settlement (v3.1.4 machine) -/

theorem good_init : Good initState [] := by
  refine ⟨⟨?_, ?_, ?_, ?_, ?_⟩, ?_, ?_⟩ <;> simp [initState, settleCount_nil, Inv]

theorem good_extend_nosettle {st : CtrlState} {effs : List Effect} (h : Good st effs)
    {effs' : List Effect} (hno : ∀ id, settleCount effs' id = 0) :
    Good st (effs ++ effs') := by
  obtain ⟨hinv, hle, hgone⟩ := h
  refine ⟨hinv, ?_, ?_⟩
  · intro id
    rw [settleCount_append, hno]
    exact hle id
  · intro id hid
    rw [settleCount_append, hno] at hid
    exact hgone id (by omega)

theorem good_settle_step {st : CtrlState} {effs : List Effect} {id : String} {e : Entry}
    (h : Good st effs) (hlook : lookupEntry st.pending id = some e) (eff1 : Effect)
    (heff : isSettleFor id eff1 = true)
    (honly : ∀ id', id' ≠ id → isSettleFor id' eff1 = false) :
    Good { st with pending := eraseKey st.pending id,
                   activeTimers := clearTimer st.activeTimers e.timeoutId }
         (effs ++ [eff1]) := by
  obtain ⟨hinv, hle, hgone⟩ := h
  have hmem : (id, e) ∈ st.pending := lookupEntry_mem hlook
  have hczero : settleCount effs id = 0 := by
    by_contra hne
    have := (hgone id (by omega)).1
    rw [this] at hlook
    exact Option.noConfusion hlook
  refine ⟨⟨?_, ?_, ?_, ?_, ?_⟩, ?_, ?_⟩
  · intro p hp
    exact hinv.keyBound p (mem_eraseKey.mp hp).1
  · exact (eraseKey_map_sublist st.pending id Prod.fst).nodup hinv.keysNodup
  · intro p hp
    exact hinv.timerBound p (mem_eraseKey.mp hp).1
  · exact (eraseKey_map_sublist st.pending id _).nodup hinv.timersNodup
  · intro p hp
    obtain ⟨hpmem, hpne⟩ := mem_eraseKey.mp hp
    refine mem_clearTimer.mpr ⟨hinv.timerArmed p hpmem, ?_⟩
    intro heq
    have := List.inj_on_of_nodup_map hinv.timersNodup hpmem hmem heq
    exact hpne (by rw [this])
  · intro id'
    rw [settleCount_append, settleCount_cons, settleCount_nil]
    by_cases hid : id' = id
    · subst hid
      rw [hczero, heff]
      simp
    · rw [honly id' hid]
      simpa using hle id'
  · intro id' hid'
    rw [settleCount_append, settleCount_cons, settleCount_nil] at hid'
    by_cases hid : id' = id
    · subst hid
      refine ⟨lookupEntry_eraseKey_self _ _, ?_⟩
      obtain ⟨n, hn, hlt⟩ := hinv.keyBound (id', e) hmem
      exact ⟨n, hn, hlt⟩
    · rw [honly id' hid] at hid'
      simp at hid'
      obtain ⟨hnone, hnum⟩ := hgone id' (by omega)
      exact ⟨lookupEntry_eraseKey_none hnone, hnum⟩

theorem good_dispatch {st : CtrlState} {effs : List Effect} (h : Good st effs) (d : Value) :
    Good (dispatch st d).1 (effs ++ (dispatch st d).2) := by
  cases hid : envId d with
  | none => simp only [dispatch, hid]; simpa using h
  | some id =>
    cases hact : envAction d with
    | none => simp only [dispatch, hid, hact]; simpa using h
    | some action =>
      cases hent : lookupEntry st.pending id with
      | none => simp only [dispatch, hid, hact, hent]; simpa using h
      | some e =>
        by_cases hterm : action = "task:result" ∨ action = "error" ∨ action = "init-error"
        · rcases hterm with h1 | h2 | h3
        
          · subst h1
            simp only [dispatch, hid, hact, hent]
            simp +decide only [if_pos, if_neg, reduceIte]
            exact good_settle_step h hent _ (by simp [isSettleFor])
              (fun id' hne => by simp [isSettleFor]; exact Ne.symm hne)
          · subst h2
            simp only [dispatch, hid, hact, hent]
            simp +decide only [if_pos, if_neg, reduceIte]
            exact good_settle_step h hent _ (by simp [isSettleFor])
              (fun id' hne => by simp [isSettleFor]; exact Ne.symm hne)
          · subst h3
            simp only [dispatch, hid, hact, hent]
            simp +decide only [if_pos, if_neg, reduceIte]
            exact good_settle_step h hent _ (by simp [isSettleFor])
              (fun id' hne => by simp [isSettleFor]; exact Ne.symm hne)
        · push_neg at hterm
          obtain ⟨hne1, hne2, hne3⟩ := hterm
          by_cases hprog : action = "progress"
          · subst hprog
            simp only [dispatch, hid, hact, hent]
            simp +decide only [if_pos, if_neg, reduceIte]
            exact good_extend_nosettle h
              (fun id' => by simp [settleCount_cons, settleCount_nil, isSettleFor])
          · simp only [dispatch, hid, hact, hent]
            rw [if_neg (by tauto), if_neg hprog, if_neg hne1, if_neg (by tauto)]
            simpa using h

theorem good_fire {st : CtrlState} {effs : List Effect} (h : Good st effs)
    (id : String) (tid : Nat) :
    Good (fireTimer st id tid).1 (effs ++ (fireTimer st id tid).2) := by
  by_cases hc : lookupEntry st.pending id = some ⟨tid⟩ ∧ tid ∈ st.activeTimers
  · simp only [fireTimer, if_pos hc]
    exact good_settle_step h hc.1 _ (by simp [isSettleFor])
      (fun id' hne => by simp [isSettleFor]; exact Ne.symm hne)
  · simp only [fireTimer, if_neg hc]
    simpa using h

theorem good_call {st : CtrlState} {effs : List Effect} (h : Good st effs)
    (a : String) (p : Value) :
    Good (call st a p).1 (effs ++ (call st a p).2.2) := by
  obtain ⟨hinv, hle, hgone⟩ := h
  have hfresh : jsString st.nextId ∉ st.pending.map Prod.fst := by
    intro hmem
    obtain ⟨q, hq, hfst⟩ := List.mem_map.mp hmem
    obtain ⟨n, hn, hlt⟩ := hinv.keyBound q hq
    rw [hn] at hfst
    exact absurd (jsString_inj hfst) (by omega)
  have htfresh : st.nextTimer ∉ st.pending.map (fun p => p.2.timeoutId) := by
    intro hmem
    obtain ⟨q, hq, hfst⟩ := List.mem_map.mp hmem
    have := hinv.timerBound q hq
    omega
  have hno : ∀ id, settleCount (call st a p).2.2 id = 0 := by
    intro id
    simp only [call]
    by_cases hrev : st.revoked <;>
      simp [hrev, settleCount_cons, settleCount_nil, isSettleFor]
  refine ⟨⟨?_, ?_, ?_, ?_, ?_⟩, ?_, ?_⟩
  · intro q hq
    simp only [call] at hq
    rcases List.mem_append.mp hq with hq | hq
    · obtain ⟨n, hn, hlt⟩ := hinv.keyBound q hq
      exact ⟨n, hn, by simp only [call]; omega⟩
    · simp at hq
      refine ⟨st.nextId, by simp [hq], by simp only [call]; omega⟩
  · simp only [call, List.map_append]
    rw [List.nodup_append]
    refine ⟨hinv.keysNodup, by simp, ?_⟩
    intro x hx hy
    simp at hy
    subst hy
    exact hfresh hx
  · intro q hq
    simp only [call] at hq ⊢
    rcases List.mem_append.mp hq with hq | hq
    · have := hinv.timerBound q hq
      omega
    · simp at hq
      simp [hq]
  · simp only [call, List.map_append]
    rw [List.nodup_append]
    refine ⟨hinv.timersNodup, by simp, ?_⟩
    intro x hx hy
    simp at hy
    subst hy
    exact htfresh hx
  · intro q hq
    simp only [call] at hq ⊢
    rcases List.mem_append.mp hq with hq | hq
    · exact List.mem_append_left _ (hinv.timerArmed q hq)
    · simp at hq
      simp [hq]
  · intro id
    rw [settleCount_append, hno]
    simpa using hle id
  · intro id hid
    rw [settleCount_append, hno] at hid
    obtain ⟨hnone, n, hn, hlt⟩ := hgone id (by omega)
    refine ⟨?_, n, hn, by simp only [call]; omega⟩
    simp only [call]
    rw [lookupEntry_append_none hnone]
    have hne : jsString st.nextId ≠ id := by
      rw [hn]
      intro heq
      exact absurd (jsString_inj heq) (by omega)
    simp [lookupEntry, hne]

theorem good_terminate {st : CtrlState} {effs : List Effect} (h : Good st effs) :
    Good (terminate st).1 (effs ++ (terminate st).2) := by
  obtain ⟨hinv, hle, hgone⟩ := h
  have hshut : ∀ id, settleCount [Effect.backendShutdown] id = 0 := by
    intro id
    simp [settleCount_cons, settleCount_nil, isSettleFor]
  refine ⟨⟨?_, ?_, ?_, ?_, ?_⟩, ?_, ?_⟩ <;>
    simp only [terminate]
  · intro q hq
    simp at hq
  · simp
  · intro q hq
    simp at hq
  · simp
  · intro q hq
    simp at hq
  · intro id
    rw [settleCount_append, settleCount_append, hshut]
    by_cases hmem : id ∈ st.pending.map Prod.fst
    · rw [settleCount_rejects_nodup_mem _ _ hinv.keysNodup hmem]
      have hz : settleCount effs id = 0 := by
        by_contra hne
        have := (hgone id (by omega)).1
        rw [lookupEntry_eq_none_iff] at this
        exact this hmem
      omega
    · rw [settleCount_rejects_not_mem _ _ hmem]
      have := hle id
      omega
  · intro id hid
    rw [settleCount_append, settleCount_append, hshut] at hid
    refine ⟨rfl, ?_⟩
    by_cases hold : 1 ≤ settleCount effs id
    · exact (hgone id hold).2
    · have hmem : id ∈ st.pending.map Prod.fst := by
        by_contra hnm
        rw [settleCount_rejects_not_mem _ _ hnm] at hid
        omega
      obtain ⟨q, hq, hfst⟩ := List.mem_map.mp hmem
      obtain ⟨n, hn, hlt⟩ := hinv.keyBound q hq
      exact ⟨n, by rw [← hfst, hn], hlt⟩

theorem good_exec : ∀ (evs : List Event) {st : CtrlState} {effs : List Effect},
    Good st effs → Good (exec st evs).1 (effs ++ (exec st evs).2) := by
  intro evs
  induction evs with
  | nil => intro st effs h; simpa [exec] using h
  | cons ev t ih =>
    intro st effs h
    have h1 : Good (execEvent st ev).1 (effs ++ (execEvent st ev).2) := by
      cases ev with
      | deliver d => exact good_dispatch h d
      | fire id tid => exact good_fire h id tid
      | doCall a p => exact good_call h a p
      | doTerminate => exact good_terminate h
    have h2 := ih h1
    simpa [exec, List.append_assoc] using h2

end WF3

theorem envId_mkResponseEnvelope (id action : String) (p : Value) :
    envId (mkResponseEnvelope id action p) = some id := rfl

theorem envAction_mkResponseEnvelope (id action : String) (p : Value) :
    envAction (mkResponseEnvelope id action p) = some action := rfl

theorem payload_mkResponseEnvelope (id action : String) (p : Value) :
    getField (mkResponseEnvelope id action p) "payload" = some p := rfl

/-- C1: for every call, the returned future settles exactly once: whichever of
terminal envelope (`dispatch` of a `task:result`/`error`/`init-error`), timeout
expiry (`fireTimer`), or `terminate()` runs first clears the timer, removes the
pending entry, and resolves/rejects; any later settlement attempt for that id —
in particular a terminal envelope arriving after the timeout already fired —
finds no entry and has no effect.  Conjuncts: (1) along every schedule of
controller turns from the initial state, each id receives at most one
resolve/reject call; (2) every reachable state satisfies the registry invariant
(in particular a pending entry's timer is still armed, so the entry cannot
outlive all three settlement paths); (3) a terminal envelope with a registered
id clears the timer, removes the entry and resolves in one step; (4) a timeout
firing with a registered entry and armed timer clears, removes and rejects in
one step; (5) a terminal envelope whose id has no entry leaves the state
untouched and produces no effect; (6) a timer that is no longer armed (cleared
or already spent) cannot fire: its turn is a no-op. -/
theorem c1_future_settles_exactly_once :
    (∀ evs id, settleCount (WF3.exec WF3.initState evs).2 id ≤ 1)
    ∧ (∀ evs, WF3.Inv (WF3.exec WF3.initState evs).1)
    ∧ (∀ st id e p, lookupEntry st.pending id = some e →
        WF3.dispatch st (mkResponseEnvelope id "task:result" p) =
          ({ st with pending := eraseKey st.pending id,
                     activeTimers := clearTimer st.activeTimers e.timeoutId },
           [Effect.resolveFuture id (some p)]))
    ∧ (∀ st id tid, lookupEntry st.pending id = some ⟨tid⟩ → tid ∈ st.activeTimers →
        WF3.fireTimer st id tid =
          ({ st with pending := eraseKey st.pending id,
                     activeTimers := clearTimer st.activeTimers tid },
           [Effect.rejectFuture id RejectReason.timeout]))
    ∧ (∀ st id p, lookupEntry st.pending id = none →
        WF3.dispatch st (mkResponseEnvelope id "task:result" p) = (st, []))
    ∧ (∀ st id tid, tid ∉ st.activeTimers → WF3.fireTimer st id tid = (st, [])) := by
  refine ⟨?_, ?_, ?_, ?_, ?_, ?_⟩
  · intro evs id
    simpa using (WF3.good_exec evs WF3.good_init).2.1 id
  · intro evs
    exact (WF3.good_exec evs WF3.good_init).1
  · intro st id e p hlook
    simp only [WF3.dispatch, envId_mkResponseEnvelope, envAction_mkResponseEnvelope,
      payload_mkResponseEnvelope, hlook]
    simp +decide
  · intro st id tid hlook harmed
    simp only [WF3.fireTimer, if_pos (And.intro hlook harmed)]
  · intro st id p hnone
    simp only [WF3.dispatch, envId_mkResponseEnvelope, envAction_mkResponseEnvelope, hnone]
  · intro st id tid hnot
    have : ¬ (lookupEntry st.pending id = some ⟨tid⟩ ∧ tid ∈ st.activeTimers) := by
      intro hc
      exact hnot hc.2
    simp only [WF3.fireTimer, if_neg this]

theorem c1_future_settles_exactly_once_witness :
    settleCount (WF3.exec WF3.initState
        [WF3.Event.doCall "start_task" Value.null,
         WF3.Event.fire (jsString 0) 0,
         WF3.Event.deliver (mkResponseEnvelope (jsString 0) "task:result" Value.null)]).2
      (jsString 0) ≤ 1
    ∧ WF3.dispatch
        { pending := [("0", ⟨5⟩)], activeTimers := [5], revoked := false,
          nextId := 1, nextTimer := 6 }
        (mkResponseEnvelope "0" "task:result" Value.null) =
      ({ pending := [], activeTimers := [], revoked := false, nextId := 1, nextTimer := 6 },
       [Effect.resolveFuture "0" (some Value.null)])
    ∧ WF3.fireTimer
        { pending := [("0", ⟨5⟩)], activeTimers := [5], revoked := false,
          nextId := 1, nextTimer := 6 } "0" 5 =
      ({ pending := [], activeTimers := [], revoked := false, nextId := 1, nextTimer := 6 },
       [Effect.rejectFuture "0" RejectReason.timeout])
    ∧ WF3.dispatch WF3.initState (mkResponseEnvelope "7" "task:result" Value.null) =
        (WF3.initState, [])
    ∧ WF3.fireTimer WF3.initState "7" 3 = (WF3.initState, []) := by
  refine ⟨c1_future_settles_exactly_once.1 _ _, ?_, ?_, ?_, ?_⟩
  · have h := c1_future_settles_exactly_once.2.2.1
      { pending := [("0", ⟨5⟩)], activeTimers := [5], revoked := false,
        nextId := 1, nextTimer := 6 } "0" ⟨5⟩ Value.null (by rfl)
    rw [h]
    rfl
  · have h := c1_future_settles_exactly_once.2.2.2.1
      { pending := [("0", ⟨5⟩)], activeTimers := [5], revoked := false,
        nextId := 1, nextTimer := 6 } "0" 5 (by rfl) (by simp)
    rw [h]
    rfl
  · exact c1_future_settles_exactly_once.2.2.2.2.1 WF3.initState "7" Value.null (by rfl)
  · exact c1_future_settles_exactly_once.2.2.2.2.2 WF3.initState "7" 3 (by simp [WF3.initState])

/-- C10: `cloneAny` is a round-trip identity on plain JSON-representable data:
for every value built from null, booleans, (integer) numbers, strings, and
finite arrays/objects of these, `cloneAny` returns a value structurally equal
to its input — both on the `structuredClone` path (host flag `true`) and on the
`JSON.parse(JSON.stringify(...))` fallback path (host flag `false`). -/
theorem c10_cloneAny_roundtrip_identity (v : Value) :
    cloneAny true v = some v ∧ cloneAny false v = some v := by
  constructor
  · simp [cloneAny, sClone_id]
  · simp [cloneAny, jsonClone_id]

/-- C4: cancellation of the emulated time-sliced loop is cooperative and
advisory.  Once the scheduler observes `aborted === true` — the flag is
constant within one slice (single-threaded run-to-completion) and is checked
at the slice-entry guard, in the inner `while` condition, and in `finish` —
it runs no further loop iterations, schedules no further slices, never
executes the teardown, and the run's future never resolves: (1) a slice whose
flag is set halts at once; (2) the inner loop with the flag set performs zero
iterations; (3) `finish` under the flag emits nothing, so no teardown output
produced after the abort was observed can resolve the future; (4) the whole
self-rescheduling run, from any slice at which the flag is observed, performs
zero iterations and emits no result. -/
theorem c4_cancellation_cooperative :
    (∀ (σ ρ : Type) (loopF : Sched.TState σ → Sched.TState σ)
       (teardown : Sched.TState σ → ρ) (budget delay : Nat) (s : Sched.TState σ),
       Sched.step loopF teardown true budget delay s = Sched.StepOut.halted)
    ∧ (∀ (σ : Type) (loopF : Sched.TState σ → Sched.TState σ) (b : Nat) (s : Sched.TState σ),
        Sched.sliceLoop loopF true b s = (s, 0))
    ∧ (∀ (σ ρ : Type) (teardown : Sched.TState σ → ρ) (s : Sched.TState σ),
        Sched.finish teardown true s = none)
    ∧ (∀ (σ ρ : Type) (loopF : Sched.TState σ → Sched.TState σ)
         (teardown : Sched.TState σ → ρ) (abSeq : Nat → Bool) (budget : Nat → Nat)
         (fuel k delay : Nat) (s : Sched.TState σ), abSeq k = true →
        Sched.run loopF teardown abSeq budget fuel k delay s = (s, 0, none)) := by
  refine ⟨?_, ?_, ?_, ?_⟩
  · intro σ ρ loopF teardown budget delay s
    simp [Sched.step]
  · intro σ loopF b s
    cases b <;> simp [Sched.sliceLoop]
  · intro σ ρ teardown s
    simp [Sched.finish]
  · intro σ ρ loopF teardown abSeq budget fuel k delay s hab
    cases fuel with
    | zero => simp [Sched.run]
    | succ f => simp [Sched.run, Sched.step, hab]

theorem c4_cancellation_cooperative_witness :
    Sched.run (σ := Nat) (ρ := Nat) id (fun s => s.i) (fun _ => true) (fun _ => 5)
        3 0 0 ⟨0, 10, 0⟩ = (⟨0, 10, 0⟩, 0, none) :=
  c4_cancellation_cooperative.2.2.2 Nat Nat id (fun s => s.i) (fun _ => true)
    (fun _ => 5) 3 0 0 ⟨0, 10, 0⟩ rfl

/-- C5: every envelope posted through the Endpoint toward the emulated backend
is delivered asynchronously — the posting turn performs zero handler
invocations; delivery is a task appended to the host macrotask queue — and the
delivered value is a deep copy of (structurally equal to) the posted envelope.
Consequently the `call` turn, which registers its pending entry and then posts
in the same turn, always completes the registration before any response for
that id can arrive: at the end of the turn the entry is registered, nothing
was delivered synchronously, and the request still sits in the queue. -/
theorem c5_async_deep_copy_delivery :
    (∀ st msg, st.terminated = false →
      Emu.emulatorPost st msg =
        ({ st with queue := st.queue ++ [Emu.TurnTask.deliverToWorker msg] }, []))
    ∧ (∀ st msg, (Emu.emulatorPost st msg).2 = [])
    ∧ (∀ st msg, st.terminated = false →
        Emu.scopePost st msg =
          ({ st with queue := st.queue ++ [Emu.TurnTask.deliverToMain msg] }, []))
    ∧ (∀ cst est a p, cst.revoked = false → est.terminated = false →
        (Emu.callTurn cst est a p).2 = []
        ∧ (Emu.callTurn cst est a p).1.1.pending =
            cst.pending ++ [(jsString cst.nextId, ⟨cst.nextTimer⟩)]
        ∧ (Emu.callTurn cst est a p).1.2.queue =
            est.queue ++
              [Emu.TurnTask.deliverToWorker (mkCallEnvelope a p (jsString cst.nextId))]) := by
  refine ⟨?_, ?_, ?_, ?_⟩
  · intro st msg hterm
    simp [Emu.emulatorPost, hterm, sClone_id]
  · intro st msg
    by_cases hterm : st.terminated <;> simp [Emu.emulatorPost, hterm]
  · intro st msg hterm
    simp [Emu.scopePost, hterm, sClone_id]
  · intro cst est a p hrev hterm
    refine ⟨?_, ?_, ?_⟩ <;>
      simp [Emu.callTurn, Emu.endpointPost, Emu.emulatorPost, WF3.call, hrev, hterm, sClone_id]

theorem c5_async_deep_copy_delivery_witness :
    Emu.emulatorPost ⟨false, []⟩ Value.null =
      (⟨false, [Emu.TurnTask.deliverToWorker Value.null]⟩, [])
    ∧ (Emu.callTurn WF3.initState ⟨false, []⟩ "start_task" Value.null).2 = [] := by
  constructor
  · have h := c5_async_deep_copy_delivery.1 ⟨false, []⟩ Value.null rfl
    rw [h]
    rfl
  · exact (c5_async_deep_copy_delivery.2.2.2 WF3.initState ⟨false, []⟩ "start_task"
      Value.null rfl rfl).1

/-! ## Worker-script progress cadence (C7) -/

theorem loopEmit_all_live (K total : Nat) : ∀ fuel i,
    ∀ m ∈ WorkerScript.loopEmit K total fuel i, WorkerScript.isLive m = true := by
  intro fuel
  induction fuel with
  | zero => intro i m hm; simp [WorkerScript.loopEmit] at hm
  | succ f ih =>
    intro i m hm
    by_cases hi : i < total
    · rw [WorkerScript.loopEmit, if_pos (by simp [WorkerScript.aborted, hi])] at hm
      rcases List.mem_append.mp hm with hm | hm
      · by_cases hK : ((i + 1) % K == 0) = true
        · rw [if_pos hK] at hm
          simp at hm
          subst hm
          rfl
        · rw [if_neg hK] at hm
          simp at hm
      · exact ih (i + 1) m hm
    · rw [WorkerScript.loopEmit, if_neg (by simp [WorkerScript.aborted, hi])] at hm
      simp at hm

theorem loopEmit_length (K total : Nat) (_hK : 0 < K) : ∀ fuel i, total ≤ i + fuel →
    (WorkerScript.loopEmit K total fuel i).length = total / K - i / K := by
  intro fuel
  induction fuel with
  | zero =>
    intro i hfi
    have hmono : total / K ≤ i / K := Nat.div_le_div_right (by omega)
    simp [WorkerScript.loopEmit]
    omega
  | succ f ih =>
    intro i hfi
    by_cases hi : i < total
    · have hrec := ih (i + 1) (by omega)
      have hsucc : (i + 1) / K = i / K + if K ∣ (i + 1) then 1 else 0 := Nat.succ_div i K
      have hmono : (i + 1) / K ≤ total / K := Nat.div_le_div_right (by omega)
      rw [WorkerScript.loopEmit, if_pos (by simp [WorkerScript.aborted, hi]),
        List.length_append, hrec]
      by_cases hdvd : K ∣ (i + 1)
      · have h1 : (i + 1) / K = i / K + 1 := by rw [hsucc, if_pos hdvd]
        rw [if_pos (by simpa using Nat.dvd_iff_mod_eq_zero.mp hdvd)]
        rw [h1] at hmono hrec ⊢
        simp
        omega
      · have h1 : (i + 1) / K = i / K := by rw [hsucc, if_neg hdvd]; simp
        rw [if_neg (by
          simp only [beq_iff_eq]
          intro hc
          exact hdvd (Nat.dvd_iff_mod_eq_zero.mpr hc))]
        rw [h1]
        simp
    · have hmono : total / K ≤ i / K := Nat.div_le_div_right (by omega)
      rw [WorkerScript.loopEmit, if_neg (by simp [WorkerScript.aborted, hi])]
      simp
      omega

/-- C7: for a loop task of `N` total steps with progress emitted every `K`
steps — the worker script `src/src/workersFriend.worker.js` uses `K = 50000`,
posting when the incremented counter `i` satisfies `i % K === 0` — the run
emits exactly `⌊N / K⌋` live-progress envelopes, all sent strictly before the
single terminal `task:result` envelope: the outbound traffic is exactly the
live-progress messages followed by one final `result`. -/
theorem c7_progress_cadence (N : Nat) :
    WorkerScript.runTask N =
      WorkerScript.loopEmit WorkerScript.progressEvery N N 0 ++ [WorkerScript.WMsg.result]
    ∧ (WorkerScript.loopEmit WorkerScript.progressEvery N N 0).all WorkerScript.isLive = true
    ∧ (WorkerScript.loopEmit WorkerScript.progressEvery N N 0).length = N / 50000 := by
  refine ⟨rfl, ?_, ?_⟩
  · rw [List.all_eq_true]
    exact loopEmit_all_live _ N N 0
  · have h := loopEmit_length WorkerScript.progressEvery N (by simp [WorkerScript.progressEvery])
      N 0 (by omega)
    simpa [WorkerScript.progressEvery] using h

/-- C8: worker creation requires exactly one program source among
`workerUrl`, `taskString`, `taskElementId` (counted after JS truthiness, so an
absent option or empty string does not count): supplying zero of them or more
than one is rejected as a configuration error, and on those two paths no
`Worker` and no emulator instance is constructed (the construction trace is
empty). -/
theorem c8_exactly_one_source (o : Create.CreateOptions)
    (domScript fetchScript : String → Option String) (workerAvailable : Bool)
    (h : (Create.providedSources o).length = 0 ∨ 1 < (Create.providedSources o).length) :
    ∃ msg, Create.createCoreWorkerInit o domScript fetchScript workerAvailable =
      (Except.error msg, []) := by
  rcases h with h | h
  · exact ⟨_, by rw [Create.createCoreWorkerInit, if_pos h]⟩
  · have h0 : ¬ (Create.providedSources o).length = 0 := by omega
    exact ⟨_, by rw [Create.createCoreWorkerInit, if_neg h0, if_pos h]⟩

theorem c8_exactly_one_source_witness :
    (∃ msg, Create.createCoreWorkerInit ⟨none, none, none, true⟩
      (fun _ => none) (fun _ => none) true = (Except.error msg, []))
    ∧ (∃ msg, Create.createCoreWorkerInit ⟨some "worker.js", some "self.onmessage = null", none, true⟩
      (fun _ => none) (fun _ => none) true = (Except.error msg, [])) :=
  ⟨c8_exactly_one_source _ _ _ _ (Or.inl (by decide)),
   c8_exactly_one_source _ _ _ _ (Or.inr (by decide))⟩

/-- C2 counterexample: on the v3.1.4 handle (`src/workersFriend.js` lines
320-347, cited by the claim), a `call()` issued after `terminate()` does NOT
fail synchronously without registering: it registers a pending entry (length
grows 0 → 1) and arms a fresh timeout; only the backend post is suppressed
(the Endpoint is revoked), so the returned promise settles later via the
timeout instead of synchronously. -/
theorem c2_call_after_terminate_counterexample :
    ((WF3.call (WF3.terminate WF3.initState).1 "start_task" Value.null).1.pending).length = 1
    ∧ (WF3.call (WF3.terminate WF3.initState).1 "start_task" Value.null).2.2 = []
    ∧ ((WF3.call (WF3.terminate WF3.initState).1 "start_task" Value.null).1.activeTimers).length = 1 := by
  refine ⟨rfl, rfl, rfl⟩

/-- C2 (amended): on the v6.8.2 handle (`src/unnamed/part_001` lines 251-285),
after `terminate()` every subsequent `call()` fails synchronously and
immediately with an already-rejected future, posting nothing to the backend
and registering no pending entry; on the v3.1.4 handle a post-terminate
`call()` likewise posts nothing (the Endpoint is revoked) but still registers
a pending entry, whose future is rejected only later by its timeout. -/
theorem c2_call_after_terminate :
    (∀ st a p, st.rawTerminated = true →
      WF6.call st a p = (st, WF6.CallResult.alreadyTerminatedRejection, []))
    ∧ (∀ st a p, st.revoked = true →
        (WF3.call st a p).2.2 = []
        ∧ (WF3.call st a p).1.pending =
            st.pending ++ [(jsString st.nextId, ⟨st.nextTimer⟩)]) := by
  constructor
  · intro st a p hterm
    simp [WF6.call, hterm]
  · intro st a p hrev
    constructor
    · simp [WF3.call, hrev]
    · simp [WF3.call]

theorem c2_call_after_terminate_witness :
    WF6.call (WF6.terminate WF6.initState).1 "start_task" Value.null =
      ((WF6.terminate WF6.initState).1, WF6.CallResult.alreadyTerminatedRejection, [])
    ∧ (WF3.call (WF3.terminate WF3.initState).1 "start_task" Value.null).2.2 = [] := by
  constructor
  · exact c2_call_after_terminate.1 _ "start_task" Value.null rfl
  · exact (c2_call_after_terminate.2 _ "start_task" Value.null rfl).1

/-! ## Terminate drains the registry (C3) -/

theorem mem_foldl_clearTimer (ps : List (String × Entry)) :
    ∀ (timers : List Nat) (x : Nat),
      x ∈ ps.foldl (fun acc q => clearTimer acc q.2.timeoutId) timers → x ∈ timers := by
  induction ps with
  | nil => intro timers x h; simpa using h
  | cons q t ih =>
    intro timers x h
    simp only [List.foldl_cons] at h
    exact (mem_clearTimer.mp (ih _ x h)).1

theorem foldl_clearTimer_not_mem (ps : List (String × Entry)) :
    ∀ (timers : List Nat), ∀ p ∈ ps,
      p.2.timeoutId ∉ ps.foldl (fun acc q => clearTimer acc q.2.timeoutId) timers := by
  induction ps with
  | nil => intro timers p hp; simp at hp
  | cons q t ih =>
    intro timers p hp hmem
    simp only [List.foldl_cons] at hmem
    rcases List.mem_cons.mp hp with hp | hp
    · subst hp
      have := mem_foldl_clearTimer t _ _ hmem
      exact absurd rfl (mem_clearTimer.mp this).2
    · exact ih _ p hp hmem

/-- C3: `terminate()` rejects every currently pending future with a
termination error, clearing each entry's timeout and emptying the correlation
map, before releasing the backend: the effect trace is exactly the per-entry
rejections (in map order) followed by the single backend shutdown, the state's
map is empty afterwards, and no pending entry's timer remains armed.  Stated
for both the v3.1.4 `terminate` (lines 349-356) and the v6.8.2 `ep.terminate`
(part_001 lines 201-219, which additionally marks the handle terminated). -/
theorem c3_terminate_drains_registry :
    (∀ st : WF3.CtrlState,
      (WF3.terminate st).1.pending = []
      ∧ (WF3.terminate st).2 =
          st.pending.map (fun p => Effect.rejectFuture p.1 RejectReason.terminated)
            ++ [Effect.backendShutdown]
      ∧ (WF3.terminate st).1.revoked = true
      ∧ ∀ p ∈ st.pending, p.2.timeoutId ∉ (WF3.terminate st).1.activeTimers)
    ∧ (∀ st : WF6.CtrlState,
      (WF6.terminate st).1.pending = []
      ∧ (WF6.terminate st).2 =
          st.pending.map (fun p => Effect.rejectFuture p.1 RejectReason.terminated)
            ++ [Effect.backendShutdown]
      ∧ (WF6.terminate st).1.rawTerminated = true
      ∧ ∀ p ∈ st.pending, p.2.timeoutId ∉ (WF6.terminate st).1.activeTimers) := by
  constructor
  · intro st
    refine ⟨rfl, rfl, rfl, ?_⟩
    intro p hp
    exact foldl_clearTimer_not_mem st.pending st.activeTimers p hp
  · intro st
    refine ⟨rfl, rfl, rfl, ?_⟩
    intro p hp
    exact foldl_clearTimer_not_mem st.pending st.activeTimers p hp

theorem c3_terminate_drains_registry_witness :
    (WF3.terminate
      { pending := [("0", ⟨5⟩)], activeTimers := [5], revoked := false,
        nextId := 1, nextTimer := 6 }).2 =
      [Effect.rejectFuture "0" RejectReason.terminated, Effect.backendShutdown]
    ∧ (5 : Nat) ∉ (WF3.terminate
      { pending := [("0", ⟨5⟩)], activeTimers := [5], revoked := false,
        nextId := 1, nextTimer := 6 }).1.activeTimers
    ∧ (WF6.terminate
      { pending := [("0", ⟨5⟩)], activeTimers := [5], rawTerminated := false,
        nextId := 1, nextTimer := 6 }).1.pending = [] := by
  refine ⟨?_, ?_, ?_⟩
  · have h := (c3_terminate_drains_registry.1
      { pending := [("0", ⟨5⟩)], activeTimers := [5], revoked := false,
        nextId := 1, nextTimer := 6 }).2.1
    rw [h]
    rfl
  · exact (c3_terminate_drains_registry.1
      { pending := [("0", ⟨5⟩)], activeTimers := [5], revoked := false,
        nextId := 1, nextTimer := 6 }).2.2.2 ("0", ⟨5⟩) (by simp)
  · exact (c3_terminate_drains_registry.2
      { pending := [("0", ⟨5⟩)], activeTimers := [5], rawTerminated := false,
        nextId := 1, nextTimer := 6 }).1

/-- C6: any inbound message whose data lacks a string `id` or a string
`action` (for instance `{action: "x"}` with no id) is dropped silently by the
controller-side dispatcher of both iterations: the state — pending map and
armed timers — is returned unchanged and the effect list is empty: no map
mutation, no timer cleared, no future settled, no callback, and (the
dispatcher being a total function whose guard short-circuits before any
property access on the entry) no exception. -/
theorem c6_malformed_inbound_dropped :
    (∀ st d, envId d = none ∨ envAction d = none → WF3.dispatch st d = (st, []))
    ∧ (∀ st d, envId d = none ∨ envAction d = none → WF6.dispatch st d = (st, [])) := by
  constructor
  · intro st d h
    rcases h with h | h
    · cases hact : envAction d <;> simp [WF3.dispatch, h, hact]
    · cases hid : envId d <;> simp [WF3.dispatch, h, hid]
  · intro st d h
    rcases h with h | h
    · cases hact : envAction d <;> simp [WF6.dispatch, h, hact]
    · cases hid : envId d <;> simp [WF6.dispatch, h, hid]

theorem c6_malformed_inbound_dropped_witness :
    WF3.dispatch
      { pending := [("0", ⟨5⟩)], activeTimers := [5], revoked := false,
        nextId := 1, nextTimer := 6 }
      (Value.obj [("action", Value.str "x")]) =
      ({ pending := [("0", ⟨5⟩)], activeTimers := [5], revoked := false,
         nextId := 1, nextTimer := 6 }, [])
    ∧ WF6.dispatch WF6.initState (Value.obj [("action", Value.str "x")]) =
        (WF6.initState, []) :=
  ⟨c6_malformed_inbound_dropped.1 _ _ (Or.inl rfl),
   c6_malformed_inbound_dropped.2 _ _ (Or.inl rfl)⟩

theorem envId_mkProgressEnvelope (id : String) (m : Value) :
    envId (mkProgressEnvelope id m) = some id := rfl

theorem envAction_mkProgressEnvelope (id : String) (m : Value) :
    envAction (mkProgressEnvelope id m) = some "progress" := rfl

theorem message_mkProgressEnvelope (id : String) (m : Value) :
    getField (mkProgressEnvelope id m) "message" = some m := rfl

/-- C9: delivering a progress envelope for a registered id — `progress` in
v3.1.4, `live:data` / `deferred:data` in v6.8.2 — leaves the correlation state
fully unchanged: the pending map keeps the same entries, the entry's timeout
is not cleared (the state is returned as-is), and the future is not settled;
the only effect is invoking the corresponding progress callback with the
envelope's message/payload. -/
theorem c9_progress_preserves_registry :
    (∀ st id e m, lookupEntry st.pending id = some e →
      WF3.dispatch st (mkProgressEnvelope id m) = (st, [Effect.invokeProgress (some m)]))
    ∧ (∀ st id e p, lookupEntry st.pending id = some e →
        WF6.dispatch st (mkResponseEnvelope id "live:data" p) =
          (st, [Effect.invokeLive (some p)]))
    ∧ (∀ st id e p, lookupEntry st.pending id = some e →
        WF6.dispatch st (mkResponseEnvelope id "deferred:data" p) =
          (st, [Effect.invokeDeferred (some p)])) := by
  refine ⟨?_, ?_, ?_⟩
  · intro st id e m hlook
    simp only [WF3.dispatch, envId_mkProgressEnvelope, envAction_mkProgressEnvelope,
      message_mkProgressEnvelope, hlook]
    simp +decide
  · intro st id e p hlook
    simp only [WF6.dispatch, envId_mkResponseEnvelope, envAction_mkResponseEnvelope,
      payload_mkResponseEnvelope, hlook]
    simp +decide
  · intro st id e p hlook
    simp only [WF6.dispatch, envId_mkResponseEnvelope, envAction_mkResponseEnvelope,
      payload_mkResponseEnvelope, hlook]
    simp +decide

theorem c9_progress_preserves_registry_witness :
    WF3.dispatch
      { pending := [("0", ⟨5⟩)], activeTimers := [5], revoked := false,
        nextId := 1, nextTimer := 6 }
      (mkProgressEnvelope "0" (Value.str "working")) =
      ({ pending := [("0", ⟨5⟩)], activeTimers := [5], revoked := false,
         nextId := 1, nextTimer := 6 }, [Effect.invokeProgress (some (Value.str "working"))])
    ∧ WF6.dispatch
      { pending := [("0", ⟨5⟩)], activeTimers := [5], rawTerminated := false,
        nextId := 1, nextTimer := 6 }
      (mkResponseEnvelope "0" "live:data" (Value.str "working")) =
      ({ pending := [("0", ⟨5⟩)], activeTimers := [5], rawTerminated := false,
         nextId := 1, nextTimer := 6 }, [Effect.invokeLive (some (Value.str "working"))])
    ∧ WF6.dispatch
      { pending := [("0", ⟨5⟩)], activeTimers := [5], rawTerminated := false,
        nextId := 1, nextTimer := 6 }
      (mkResponseEnvelope "0" "deferred:data" (Value.str "working")) =
      ({ pending := [("0", ⟨5⟩)], activeTimers := [5], rawTerminated := false,
         nextId := 1, nextTimer := 6 }, [Effect.invokeDeferred (some (Value.str "working"))]) :=
  ⟨c9_progress_preserves_registry.1 _ "0" ⟨5⟩ _ rfl,
   c9_progress_preserves_registry.2.1 _ "0" ⟨5⟩ _ rfl,
   c9_progress_preserves_registry.2.2 _ "0" ⟨5⟩ _ rfl⟩
